import Mathlib

/-!
Verification development for the ttydal terminal music player.

We shallowly embed the core of the repository:
* `src/ttydal/services/tracks_cache.py` — the LRU/TTL `TracksCache`
  (value-level model `CacheState`, and a heap-level model `HCacheState`
  used to reason about aliasing of returned records);
* `src/ttydal/tidal_client.py` — `TidalClient.get_track_url` with its
  quality-fallback ladder;
* `src/ttydal/player.py` — the `end-file` event callback and its
  EOF-reason gating;
* `src/ttydal/components/tracks_list.py` — the playback coordinator
  (`TracksList`): auto-advance, shuffle order generation, pre-fetch
  triggering and consumption;
* `src/ttydal/services/playback_service.py` — `PlaybackService.play_track`.

Python wall-clock times (`time.time()` floats) are modelled as rationals;
Python dicts are modelled as association lists with unique keys (dict
assignment replaces the binding in place, or appends a fresh binding).
-/

namespace Ttydal

/-- A JSON-ish value stored in a track dictionary. -/
inductive Val where
  | str (s : String)
  | num (n : Int)
  | null
deriving DecidableEq, Repr, Inhabited

/-- A Python dict used as a track record: an association list with
unique keys, in insertion order. -/
abbrev TrackDict := List (String × Val)

/-- Python dict assignment `d[k] = v`: replaces the value of an existing
binding in place (keeping its position), otherwise appends a new binding
at the end. -/
def assocSet {β : Type} (k : String) (v : β) (d : List (String × β)) :
    List (String × β) :=
  if d.any (fun p => p.1 == k) then
    d.map (fun p => if p.1 == k then (k, v) else p)
  else
    d ++ [(k, v)]

/-- Python dict lookup `d.get(k)`. -/
def assocGet {β : Type} (k : String) (d : List (String × β)) : Option β :=
  (d.find? (fun p => p.1 == k)).map (·.2)

/-- Python dict deletion `del d[k]` / `d.pop(k, None)`: removes the
binding for `k` (dict keys are unique, so filtering all bindings with
key `k` is exactly the deletion of the one binding). -/
def assocDel {β : Type} (k : String) (d : List (String × β)) :
    List (String × β) :=
  d.filter (fun p => !(p.1 == k))

/-! ## TracksCache, value-level model

`src/ttydal/services/tracks_cache.py`.  The `OrderedDict` `_cache` is a
list of `(item_id, tracks)` bindings, oldest (least recently used) at
the front; `_timestamps` is a plain dict from ids to insertion times. -/

structure CacheState where
  cache : List (String × List TrackDict)
  timestamps : List (String × ℚ)
  maxTracks : ℕ
  ttl : ℚ
deriving DecidableEq, Repr

namespace TracksCache

/-- Model of `TracksCache.__init__`: empty cache with the given limits
(`max_tracks or DEFAULT_MAX_TRACKS`, `ttl or DEFAULT_TTL` resolved by
the caller). -/
def init (maxTracks : ℕ) (ttl : ℚ) : CacheState :=
  { cache := [], timestamps := [], maxTracks := maxTracks, ttl := ttl }

/-- Model of `TracksCache.DEFAULT_MAX_TRACKS`. -/
def DEFAULT_MAX_TRACKS : ℕ := 50000

/-- Model of `TracksCache.DEFAULT_TTL`. -/
def DEFAULT_TTL : ℚ := 3600

/-- Model of `TracksCache._remove_entry`: remove an entry and return the number
of tracks removed.  If the id is not cached, nothing happens (note the
timestamp is not popped in that case either). -/
def removeEntry (itemId : String) (s : CacheState) : ℕ × CacheState :=
  match assocGet itemId s.cache with
  | none => (0, s)
  | some tracks =>
      (tracks.length,
        { s with
            cache := assocDel itemId s.cache
            timestamps := assocDel itemId s.timestamps })

/-- Model of `TracksCache._get_total_tracks`: sum of `len(tracks)` over all
cached entries. -/
def totalLen (c : List (String × List TrackDict)) : ℕ :=
  (c.map (fun e => e.2.length)).sum

/-- Model of `TracksCache._get_total_tracks` on a state. -/
def totalTracks (s : CacheState) : ℕ := totalLen s.cache

/-- Model of `TracksCache._expire_old_entries`: collect the ids whose age
strictly exceeds `ttl`, then remove each. -/
def expireOldEntries (now : ℚ) (s : CacheState) : CacheState :=
  let expired :=
    (s.timestamps.filter (fun p => decide (now - p.2 > s.ttl))).map (·.1)
  expired.foldl (fun st itemId => (removeEntry itemId st).2) s

/-- Model of `TracksCache.get`: purge expired entries, then return the cached
track list if present, moving the entry to the most-recently-used
position (`move_to_end`). -/
def get (now : ℚ) (itemId : String) (s : CacheState) :
    CacheState × Option (List TrackDict) :=
  let s1 := expireOldEntries now s
  match assocGet itemId s1.cache with
  | none => (s1, none)
  | some tracks =>
      ({ s1 with cache := assocDel itemId s1.cache ++ [(itemId, tracks)] },
        some tracks)

/-- The eviction loop of `TracksCache.set`: while the new tracks would
not fit and at least one entry remains, remove the oldest entry (the
front of the `OrderedDict`).  Returns the surviving entries and the
list of evicted ids, oldest first. -/
def evictWhile (maxTracks newCount : ℕ) :
    List (String × List TrackDict) →
      List (String × List TrackDict) × List String
  | [] => ([], [])
  | e :: rest =>
      if totalLen (e :: rest) + newCount > maxTracks then
        let (c, ev) := evictWhile maxTracks newCount rest
        (c, e.1 :: ev)
      else (e :: rest, [])

/-- Model of `TracksCache.set`: purge expired entries; drop any existing entry
for this id; evict least-recently-used entries until the new tracks
fit or the cache is empty; insert the new entry as most recently
used and record its timestamp. -/
def set (now : ℚ) (itemId : String) (tracks : List TrackDict)
    (s : CacheState) : CacheState :=
  let s1 := expireOldEntries now s
  let s2 := if (assocGet itemId s1.cache).isSome
            then (removeEntry itemId s1).2 else s1
  let (c3, evicted) := evictWhile s2.maxTracks tracks.length s2.cache
  let ts3 := evicted.foldl (fun ts itemId => assocDel itemId ts) s2.timestamps
  { s2 with
      cache := assocSet itemId tracks c3
      timestamps := assocSet itemId now ts3 }

/-- Key under which `get_all_tracks` tags each returned record. -/
def cacheAlbumKey : String := "_cache_album_id"

/-- Model of `TracksCache.get_all_tracks`: purge expired entries, then flatten
all entries; each returned record is a copy (`track.copy()`) of the
stored dict with `_cache_album_id` set to the owning id. -/
def getAllTracks (now : ℚ) (s : CacheState) :
    CacheState × List TrackDict :=
  let s1 := expireOldEntries now s
  (s1,
    (s1.cache.map (fun e =>
      e.2.map (fun track => assocSet cacheAlbumKey (Val.str e.1) track))).flatten)

end TracksCache

/-! ## TracksCache, heap-level model

To state aliasing facts about `get_all_tracks` (returned records are
fresh copies; `get` returns the stored list itself) we refine the value
model with an explicit object heap: a dict's address is its index in
`heap`, and `track.copy()` allocates by appending.  The cache stores
addresses. -/

namespace HCache

abbrev Addr := ℕ

structure HCacheState where
  heap : List TrackDict
  cache : List (String × List Addr)
  timestamps : List (String × ℚ)
  maxTracks : ℕ
  ttl : ℚ
deriving DecidableEq, Repr

/-- Model of `TracksCache._remove_entry` (heap model): unlinks the entry; the
dicts themselves stay on the heap (garbage collection is irrelevant to
the observable state). -/
def removeEntry (itemId : String) (s : HCacheState) : HCacheState :=
  match assocGet itemId s.cache with
  | none => s
  | some _ =>
      { s with
          cache := assocDel itemId s.cache
          timestamps := assocDel itemId s.timestamps }

/-- Model of `TracksCache._expire_old_entries` (heap model). -/
def expireOldEntries (now : ℚ) (s : HCacheState) : HCacheState :=
  let expired :=
    (s.timestamps.filter (fun p => decide (now - p.2 > s.ttl))).map (·.1)
  expired.foldl (fun st itemId => removeEntry itemId st) s

/-- Model of `TracksCache.get` (heap model): returns the stored address list
itself — the very same dict objects, not copies. -/
def get (now : ℚ) (itemId : String) (s : HCacheState) :
    HCacheState × Option (List Addr) :=
  let s1 := expireOldEntries now s
  match assocGet itemId s1.cache with
  | none => (s1, none)
  | some addrs =>
      ({ s1 with cache := assocDel itemId s1.cache ++ [(itemId, addrs)] },
        some addrs)

/-- Inner loop of `get_all_tracks` over one entry: for each stored
track, `track.copy()` allocates a fresh dict, which is then tagged with
`_cache_album_id` and collected. -/
def copyEntry (itemId : String) (heap : List TrackDict) :
    List Addr → List TrackDict × List Addr
  | [] => (heap, [])
  | a :: rest =>
      let heap1 :=
        heap ++ [assocSet TracksCache.cacheAlbumKey (Val.str itemId)
                   (heap.getD a [])]
      let (heap2, addrs) := copyEntry itemId heap1 rest
      (heap2, heap.length :: addrs)

/-- Outer loop of `get_all_tracks` over all cached entries. -/
def getAllTracksAux (heap : List TrackDict) :
    List (String × List Addr) → List TrackDict × List Addr
  | [] => (heap, [])
  | (itemId, addrs) :: rest =>
      let (heap1, fresh) := copyEntry itemId heap addrs
      let (heap2, more) := getAllTracksAux heap1 rest
      (heap2, fresh ++ more)

/-- Model of `TracksCache.get_all_tracks` (heap model). -/
def getAllTracks (now : ℚ) (s : HCacheState) : HCacheState × List Addr :=
  let s1 := expireOldEntries now s
  let (heap1, result) := getAllTracksAux s1.heap s1.cache
  ({ s1 with heap := heap1 }, result)

/-- Mutation of the record at address `a` (e.g. a consumer assigning
into a returned dict). -/
def mutate (a : Addr) (d : TrackDict) (s : HCacheState) : HCacheState :=
  { s with heap := s.heap.set a d }

/-- Well-formedness: every address stored in the cache is allocated. -/
def WF (s : HCacheState) : Prop :=
  ∀ p ∈ s.cache, ∀ a ∈ p.2, a < s.heap.length

end HCache

/-! ## TidalClient.get_track_url (`src/ttydal/tidal_client.py`)

The streaming backend is modelled by an oracle `attempt` giving the
outcome of one quality attempt (`track.get_stream()` / `track.get_url()`
after setting the session quality). -/

/-- The quality setting, `'max' | 'high' | 'low'`. -/
inductive Quality where
  | max
  | high
  | low
deriving DecidableEq, Repr, Inhabited

/-- The quality name string. -/
def qualityName : Quality → String
  | .max => "max"
  | .high => "high"
  | .low => "low"

/-- The `quality_order` dict of `get_track_url` (for a valid quality
setting; the dict lookup default `["high", "low"]` is unreachable for
the enumerated settings). -/
def qualityOrder : Quality → List Quality
  | .max => [.max, .high, .low]
  | .high => [.high, .low]
  | .low => [.low]

/-- The `stream_metadata` dict built by `get_track_url` on a successful
attempt (always exactly these four keys, hence always truthy). -/
structure StreamMetadata where
  audioQuality : String
  bitDepth : Option Int
  sampleRate : Option Int
  audioMode : String
deriving DecidableEq, Repr, Inhabited

/-- The `error_info` dict of `get_track_url` (all keys always present). -/
structure ErrorInfo where
  requestedQuality : Quality
  actualQuality : Option Quality
  fallbackApplied : Bool
  error : Option String
  triedQualities : List Quality
  vibrantColor : Option String
deriving DecidableEq, Repr, Inhabited

/-- Outcome of one quality attempt inside the `for attempt_quality`
loop: `get_stream()` returned a truthy stream and `get_url()` returned
`url` (`ok`); `get_stream()` returned a falsy stream (`noStream`); or an
exception was raised with message `msg` (`exc`). -/
inductive AttemptOutcome where
  | ok (url : Option String) (md : StreamMetadata)
  | noStream
  | exc (msg : String)
deriving DecidableEq, Repr, Inhabited

/-- Whether an attempt did not reach the success return. -/
def attemptFailed : AttemptOutcome → Bool
  | .ok _ _ => false
  | .noStream => true
  | .exc _ => true

/-- Python `needle in hay` on strings (char-list infix test). -/
def listIsInfix (needle : List Char) : List Char → Bool
  | [] => needle.isEmpty
  | c :: t => needle.isPrefixOf (c :: t) || listIsInfix needle t

/-- Python `needle in hay` on strings. -/
def strIn (needle hay : String) : Bool := listIsInfix needle.toList hay.toList

/-- The `for attempt_quality in qualities_to_try` loop of
`get_track_url`, threading `last_error` and the `error_info` dict. -/
def tryQualities (attempt : Quality → AttemptOutcome) (requested : Quality)
    (lastError : Option String) (ei : ErrorInfo) :
    List Quality → Option String × Option StreamMetadata × ErrorInfo
  | [] =>
      let finalErr :=
        match lastError with
        | none => "Track not available at any quality"
        | some msg =>
            if msg = "" then "Track not available at any quality" else msg
      (none, none, { ei with error := some finalErr })
  | q :: rest =>
      let ei1 := { ei with triedQualities := ei.triedQualities ++ [q] }
      match attempt q with
      | .ok url md =>
          (url, some md,
            { ei1 with
                actualQuality := some q
                fallbackApplied := decide (q ≠ requested) })
      | .noStream =>
          tryQualities attempt requested (some "No stream available") ei1 rest
      | .exc msg =>
          let qn := qualityName q
          let lastErr :=
            if strIn "401" msg || strIn "Unauthorized" msg then
              s!"Not available at {qn} quality"
            else msg
          tryQualities attempt requested (some lastErr) ei1 rest

/-- Model of `TidalClient.get_track_url`.  `loggedIn` models
`self.is_logged_in()`; `trackFetch` the initial track-data fetch (error
message on exception; on success the extracted vibrant color, if any);
`attempt` the per-quality attempt outcome. -/
def getTrackUrl (loggedIn : Bool)
    (trackFetch : Except String (Option String))
    (attempt : Quality → AttemptOutcome) (quality : Quality) :
    Option String × Option StreamMetadata × ErrorInfo :=
  let ei : ErrorInfo :=
    { requestedQuality := quality, actualQuality := none,
      fallbackApplied := false, error := none, triedQualities := [],
      vibrantColor := none }
  if !loggedIn then
    (none, none, { ei with error := some "Not logged in" })
  else
    match trackFetch with
    | .error e =>
        (none, none, { ei with error := some ("Failed to fetch track: " ++ e) })
    | .ok vc =>
        tryQualities attempt quality none { ei with vibrantColor := vc }
          (qualityOrder quality)

/-! ## Player end-file gating and the TracksList coordinator
(`src/ttydal/player.py`, `src/ttydal/components/tracks_list.py`) -/

/-- Model of `EndFileReason` (`player.py`), mapped from `mpv.MpvEventEndFile`. -/
inductive EndFileReason where
  | eof
  | restarted
  | aborted
  | quit
  | error
  | redirect
deriving DecidableEq, Repr, Inhabited

/-- A normalized track record as built by `TracksList._load_tracks_async`. -/
structure Track where
  id : String
  name : String
  artist : String
  album : String
  duration : Int
  coverUrl : Option String
deriving DecidableEq, Repr, Inhabited

/-- The `TracksList.TrackSelected` message. -/
structure TrackSelected where
  trackId : String
  trackInfo : Track
  prefetchedUrl : Option String := none
  prefetchedMetadata : Option StreamMetadata := none
  prefetchedErrorInfo : Option ErrorInfo := none
deriving DecidableEq, Repr, Inhabited

/-- The `ConfigManager` settings the coordinator reads. -/
structure Config where
  autoPlay : Bool
  shuffle : Bool
  quality : Quality
deriving DecidableEq, Repr, Inhabited

/-- The mutable state of a `TracksList` (playback coordinator). -/
structure TLState where
  tracks : List Track
  currentItemId : Option String
  currentPlayingIndex : Option Nat
  playingItemId : Option String
  shuffledIndices : List Nat
  shufflePosition : Nat
  prefetchedTrackId : Option String
  prefetchedUrl : Option String
  prefetchedMetadata : Option StreamMetadata
  prefetchedErrorInfo : Option ErrorInfo
  prefetchInProgress : Bool
deriving DecidableEq, Repr, Inhabited

/-- Model of `PREFETCH_SECONDS_BEFORE_END` (`tracks_list.py`). -/
def PREFETCH_SECONDS_BEFORE_END : ℚ := 15

/-- Model of `TracksList._get_next_track_index`: next index under the current
mode, updating `shuffle_position` in shuffle mode.  Callers guarantee
`self.tracks` is nonempty (Python raises `ZeroDivisionError` on
`% 0`; Lean `% 0` returns the dividend). -/
def getNextTrackIndex (cfg : Config) (s : TLState) : ℕ × TLState :=
  if cfg.shuffle ∧ s.shuffledIndices ≠ [] then
    let pos :=
      match s.currentPlayingIndex with
      | some i =>
          match s.shuffledIndices.findIdx? (fun j => j == i) with
          | some p => p
          | none => 0
      | none => s.shufflePosition
    let nextPos := (pos + 1) % s.shuffledIndices.length
    (s.shuffledIndices.getD nextPos 0, { s with shufflePosition := nextPos })
  else
    match s.currentPlayingIndex with
    | none => (0, s)
    | some i => ((i + 1) % s.tracks.length, s)

/-- Model of `TracksList._get_previous_track_index`.  Python's `%` on a negative
dividend with positive modulus agrees with `Int.emod`. -/
def getPreviousTrackIndex (cfg : Config) (s : TLState) : ℕ × TLState :=
  if cfg.shuffle ∧ s.shuffledIndices ≠ [] then
    let pos :=
      match s.currentPlayingIndex with
      | some i =>
          match s.shuffledIndices.findIdx? (fun j => j == i) with
          | some p => p
          | none => 0
      | none => s.shufflePosition
    let prevPos := (((pos : ℤ) - 1) % (s.shuffledIndices.length : ℤ)).toNat
    (s.shuffledIndices.getD prevPos 0, { s with shufflePosition := prevPos })
  else
    match s.currentPlayingIndex with
    | none => (s.tracks.length - 1, s)
    | some i => ((((i : ℤ) - 1) % (s.tracks.length : ℤ)).toNat, s)

/-- Model of `TracksList._clear_prefetch_state`. -/
def clearPrefetchState (s : TLState) : TLState :=
  { s with
      prefetchedTrackId := none
      prefetchedUrl := none
      prefetchedMetadata := none
      prefetchedErrorInfo := none
      prefetchInProgress := false }

/-- Model of `TracksList._on_track_end`: the auto-advance callback.  Returns the
new state and the posted `TrackSelected` message, if any. -/
def onTrackEnd (cfg : Config) (s : TLState) : TLState × Option TrackSelected :=
  if !cfg.autoPlay then (s, none)
  else if s.currentPlayingIndex = none ∨ s.tracks = [] then (s, none)
  else
    let (nextIndex, s1) := getNextTrackIndex cfg s
    let nextTrack := s1.tracks.getD nextIndex default
    let s2 := { s1 with currentPlayingIndex := some nextIndex }
    let pre : Option String × Option StreamMetadata × Option ErrorInfo :=
      if s2.prefetchedTrackId = some nextTrack.id then
        (s2.prefetchedUrl, s2.prefetchedMetadata, s2.prefetchedErrorInfo)
      else (none, none, none)
    let s3 := clearPrefetchState s2
    (s3,
      some { trackId := nextTrack.id, trackInfo := nextTrack,
             prefetchedUrl := pre.1, prefetchedMetadata := pre.2.1,
             prefetchedErrorInfo := pre.2.2 })

/-- Model of `Player._ensure_mpv.end_file_callback` composed with the registered
`on_track_end` callback (`TracksList._on_track_end`): an event without
data, or whose reason is not `EOF`, does nothing. -/
def endFileCallback (data : Option EndFileReason) (cfg : Config)
    (s : TLState) : TLState × Option TrackSelected :=
  match data with
  | none => (s, none)
  | some reason => if reason = .eof then onTrackEnd cfg s else (s, none)

/-- Model of `TracksList._on_time_pos_change`: decide whether to start a
pre-fetch.  `duration` is `Player.get_duration()`.  Returns the new
state and whether a pre-fetch worker was started. -/
def onTimePosChange (cfg : Config) (duration timePos : ℚ)
    (s : TLState) : TLState × Bool :=
  if s.prefetchedTrackId ≠ none ∨ s.prefetchInProgress then (s, false)
  else if s.currentPlayingIndex = none ∨ s.tracks = [] then (s, false)
  else if !cfg.autoPlay then (s, false)
  else if duration ≤ 0 ∨ duration < PREFETCH_SECONDS_BEFORE_END + 5 then
    (s, false)
  else
    let timeRemaining := duration - timePos
    if timeRemaining ≤ PREFETCH_SECONDS_BEFORE_END ∧ timeRemaining > 0 then
      ({ s with prefetchInProgress := true }, true)
    else (s, false)

/-- Model of `TracksList._prefetch_next_track`: the background worker.  `resolve`
models `TidalClient().get_track_url`.  A truthy (nonempty) url stores
the pre-fetch result; the `finally` block clears the in-progress flag
in every case. -/
def prefetchNextTrack (cfg : Config)
    (resolve : String → Quality → Option String × Option StreamMetadata × ErrorInfo)
    (s : TLState) : TLState :=
  let (nextIndex, s1) := getNextTrackIndex cfg s
  let nextTrack := s1.tracks.getD nextIndex default
  let (url, md, ei) := resolve nextTrack.id cfg.quality
  let s2 :=
    match url with
    | some u =>
        if u ≠ "" then
          { s1 with
              prefetchedTrackId := some nextTrack.id
              prefetchedUrl := some u
              prefetchedMetadata := md
              prefetchedErrorInfo := some ei }
        else s1
    | none => s1
  { s2 with prefetchInProgress := false }

/-- Model of `TracksList._generate_shuffle_order`.  `random.shuffle` is modelled
by the parameter `perm`: the shuffled copy of
`list(range(len(self.tracks)))`, an arbitrary permutation supplied by
the environment. -/
def generateShuffleOrder (s : TLState) (perm : List ℕ) : TLState :=
  if s.tracks = [] then
    { s with shuffledIndices := [], shufflePosition := 0 }
  else
    match s.currentPlayingIndex with
    | some k =>
        if k ∈ perm then
          { s with shuffledIndices := k :: perm.erase k, shufflePosition := 0 }
        else { s with shuffledIndices := perm }
    | none => { s with shuffledIndices := perm }

/-- Model of `TracksList.play_next_track`. -/
def playNextTrack (cfg : Config) (s : TLState) : TLState × Option TrackSelected :=
  if s.tracks = [] then (s, none)
  else
    let (nextIndex, s1) := getNextTrackIndex cfg s
    let nextTrack := s1.tracks.getD nextIndex default
    ({ s1 with
        currentPlayingIndex := some nextIndex
        playingItemId := s1.currentItemId },
      some { trackId := nextTrack.id, trackInfo := nextTrack })

/-- Model of `TracksList.play_previous_track`. -/
def playPreviousTrack (cfg : Config) (s : TLState) : TLState × Option TrackSelected :=
  if s.tracks = [] then (s, none)
  else
    let (prevIndex, s1) := getPreviousTrackIndex cfg s
    let prevTrack := s1.tracks.getD prevIndex default
    ({ s1 with
        currentPlayingIndex := some prevIndex
        playingItemId := s1.currentItemId },
      some { trackId := prevTrack.id, trackInfo := prevTrack })

/-- Model of `TracksList.on_list_view_selected` for the tracks listview:
`index` is the ListView's selected index. -/
def onListViewSelected (index : Option ℕ) (s : TLState) :
    TLState × Option TrackSelected :=
  match index with
  | none => (s, none)
  | some i =>
      if i < s.tracks.length then
        let track := s.tracks.getD i default
        ({ s with
            currentPlayingIndex := some i
            playingItemId := s.currentItemId },
          some { trackId := track.id, trackInfo := track })
      else (s, none)

/-! ## PlaybackService.play_track
(`src/ttydal/services/playback_service.py`) -/

/-- The `PlaybackResult` dataclass. -/
structure PlaybackResult where
  success : Bool
  streamMetadata : Option StreamMetadata := none
  errorMessage : Option String := none
  fallbackApplied : Bool := false
  requestedQuality : Option Quality := none
  actualQuality : Option Quality := none
  triedQualities : Option (List Quality) := none
  vibrantColor : Option String := none
deriving DecidableEq, Repr, Inhabited

/-- Python truthiness of an optional string (`None` and `""` falsy). -/
def truthyStr : Option String → Bool
  | some u => u ≠ ""
  | none => false

/-- Model of `PlaybackService.play_track`.  `resolve` models
`self.tidal.get_track_url`.  Returns the `PlaybackResult`, whether
`get_track_url` was called, and the `player.play` call
`(url, track_info, stream_metadata)` if playback started.  Python
truthiness: the stream-metadata dict always carries four keys, so an
`Option.some` metadata is truthy; urls are truthy iff nonempty. -/
def playTrack
    (resolve : String → Quality → Option String × Option StreamMetadata × ErrorInfo)
    (trackId : String) (trackInfo : Track) (quality : Quality)
    (fetchVibrantColor : Bool)
    (prefetchedUrl : Option String) (prefetchedMetadata : Option StreamMetadata)
    (prefetchedErrorInfo : Option ErrorInfo) :
    PlaybackResult × Bool × Option (String × Track × StreamMetadata) :=
  let (trackUrl, streamMetadata, errorInfo, resolveCalled) :
      Option String × Option StreamMetadata × Option ErrorInfo × Bool :=
    if truthyStr prefetchedUrl ∧ prefetchedMetadata.isSome then
      (prefetchedUrl, prefetchedMetadata, prefetchedErrorInfo, false)
    else
      let (u, m, e) := resolve trackId quality
      (u, m, some e, true)
  match trackUrl, streamMetadata with
  | some u, some m =>
      if u ≠ "" then
        let vibrant :=
          if fetchVibrantColor then errorInfo.bind (·.vibrantColor) else none
        ({ success := true
           streamMetadata := some m
           fallbackApplied :=
             (errorInfo.map (·.fallbackApplied)).getD false
           requestedQuality := errorInfo.map (·.requestedQuality)
           actualQuality := errorInfo.bind (·.actualQuality)
           triedQualities := errorInfo.map (·.triedQualities)
           vibrantColor := vibrant },
          resolveCalled, some (u, trackInfo, m))
      else
        ({ success := false
           errorMessage :=
             match errorInfo with
             | none => some "Unknown error"
             | some e => e.error
           requestedQuality := errorInfo.map (·.requestedQuality)
           triedQualities := errorInfo.map (·.triedQualities) },
          resolveCalled, none)
  | _, _ =>
      ({ success := false
         errorMessage :=
           match errorInfo with
           | none => some "Unknown error"
           | some e => e.error
         requestedQuality := errorInfo.map (·.requestedQuality)
         triedQualities := errorInfo.map (·.triedQualities) },
        resolveCalled, none)

/-! ## Concrete sample data (used by witnesses and counterexamples) -/

/-- The pre-fetch fields of a coordinator state, as a tuple. -/
def prefetchFields (s : TLState) :
    Option String × Option String × Option StreamMetadata ×
      Option ErrorInfo × Bool :=
  (s.prefetchedTrackId, s.prefetchedUrl, s.prefetchedMetadata,
    s.prefetchedErrorInfo, s.prefetchInProgress)

/-- A sample track. -/
def trA : Track :=
  { id := "t1", name := "One", artist := "Ann", album := "Alpha",
    duration := 200, coverUrl := none }

/-- A second sample track. -/
def trB : Track :=
  { id := "t2", name := "Two", artist := "Ann", album := "Alpha",
    duration := 180, coverUrl := none }

/-- Sample stream metadata. -/
def mdA : StreamMetadata :=
  { audioQuality := "LOSSLESS", bitDepth := some 16,
    sampleRate := some 44100, audioMode := "STEREO" }

/-- A sequential-mode configuration with auto-play on. -/
def cfgSeq : Config := { autoPlay := true, shuffle := false, quality := .high }

/-- A coordinator state playing track 0 of a two-track album, with no
pre-fetch state. -/
def tlA : TLState :=
  { tracks := [trA, trB], currentItemId := some "alb1",
    currentPlayingIndex := some 0, playingItemId := some "alb1",
    shuffledIndices := [], shufflePosition := 0,
    prefetchedTrackId := none, prefetchedUrl := none,
    prefetchedMetadata := none, prefetchedErrorInfo := none,
    prefetchInProgress := false }

/-- The state `tlA` with a completed pre-fetch for track `"t2"`. -/
def tlPrefetched : TLState :=
  { tlA with
      prefetchedTrackId := some "t2"
      prefetchedUrl := some "https://cdn.example/t2"
      prefetchedMetadata := some mdA
      prefetchedErrorInfo := none
      prefetchInProgress := false }

/-- A resolver whose every call fails (used to exercise a failed
pre-fetch attempt). -/
def resolveFail :
    String → Quality → Option String × Option StreamMetadata × ErrorInfo :=
  fun _ q =>
    (none, none,
      { requestedQuality := q, actualQuality := none,
        fallbackApplied := false, error := some "boom",
        triedQualities := qualityOrder q, vibrantColor := none })

/-- The three-set LRU scenario of the spec, with the default limits:
`set(A, 30000)`, `set(B, 25000)`, `set(C, 10000)` at increasing times
well within the TTL. -/
def c3cache : CacheState :=
  TracksCache.set 2 "C" (List.replicate 10000 [])
    (TracksCache.set 1 "B" (List.replicate 25000 [])
      (TracksCache.set 0 "A" (List.replicate 30000 [])
        (TracksCache.init 50000 3600)))

/-- The amended C9 trigger conditions, as a predicate: a pre-fetch
starts only under the full guard, and an in-flight or completed
pre-fetch makes the trigger a no-op. -/
def prefetchTriggerSpec (cfg : Config) (d t : ℚ) (s : TLState) : Prop :=
  ((onTimePosChange cfg d t s).2 = true →
    s.prefetchedTrackId = none ∧ s.prefetchInProgress = false ∧
    s.currentPlayingIndex ≠ none ∧ s.tracks ≠ [] ∧
    cfg.autoPlay = true ∧ 0 < d ∧ 20 ≤ d ∧ d - t ≤ 15 ∧ 0 < d - t ∧
    (onTimePosChange cfg d t s).1 = { s with prefetchInProgress := true }) ∧
  (s.prefetchInProgress = true → onTimePosChange cfg d t s = (s, false)) ∧
  (s.prefetchedTrackId ≠ none → onTimePosChange cfg d t s = (s, false))

/-- The C5 pre-fetch consumption property as a predicate: the
auto-advance posts a message; the pre-fetch state is cleared in the
resulting coordinator state; a stored pre-fetch whose id matches the
chosen next track is carried on the message and makes the playback
service skip resolution and play the pre-fetched url and metadata; a
non-matching (or absent) pre-fetch is not carried and resolution is
called exactly once. -/
def prefetchConsumptionSpec (cfg : Config) (s : TLState) : Prop :=
  ∃ m : TrackSelected, (onTrackEnd cfg s).2 = some m ∧
    prefetchFields (onTrackEnd cfg s).1 = (none, none, none, none, false) ∧
    (s.prefetchedTrackId = some m.trackId →
      m.prefetchedUrl = s.prefetchedUrl ∧
      m.prefetchedMetadata = s.prefetchedMetadata ∧
      ∀ (resolve : String → Quality →
          Option String × Option StreamMetadata × ErrorInfo)
        (q : Quality) (fvc : Bool),
        (playTrack resolve m.trackId m.trackInfo q fvc
          m.prefetchedUrl m.prefetchedMetadata m.prefetchedErrorInfo).2.1
          = false ∧
        ∃ u md, m.prefetchedUrl = some u ∧ m.prefetchedMetadata = some md ∧
          (playTrack resolve m.trackId m.trackInfo q fvc
            m.prefetchedUrl m.prefetchedMetadata m.prefetchedErrorInfo).2.2
            = some (u, m.trackInfo, md)) ∧
    (s.prefetchedTrackId ≠ some m.trackId →
      m.prefetchedUrl = none ∧ m.prefetchedMetadata = none ∧
      ∀ (resolve : String → Quality →
          Option String × Option StreamMetadata × ErrorInfo)
        (q : Quality) (fvc : Bool),
        (playTrack resolve m.trackId m.trackInfo q fvc
          m.prefetchedUrl m.prefetchedMetadata m.prefetchedErrorInfo).2.1
          = true)

/-- The C7 quality-fallback contract as a predicate on the attempt
oracle, the requested quality and the fetched vibrant color: the exact
ladders; on success at a tier (after any mix of failures before it) the
result carries that url and metadata, `actual_quality` is the
succeeding tier, `fallback_applied` is set exactly when the succeeding
tier differs from the requested one, and `tried_qualities` lists every
attempted tier in order; exhausting the whole ladder (any mix of
authorization and other errors) is the only failure, reporting the full
ladder as tried. -/
def qualityFallbackSpec
    (attempt : Quality → AttemptOutcome) (q : Quality)
    (vc : Option String) : Prop :=
  (qualityOrder .max = [.max, .high, .low] ∧
    qualityOrder .high = [.high, .low] ∧
    qualityOrder .low = [.low]) ∧
  (∀ (pre : List Quality) (qs : Quality) (post : List Quality)
      (url : Option String) (md : StreamMetadata),
    qualityOrder q = pre ++ qs :: post →
    (∀ p ∈ pre, attemptFailed (attempt p) = true) →
    attempt qs = .ok url md →
    getTrackUrl true (.ok vc) attempt q
      = (url, some md,
          { requestedQuality := q, actualQuality := some qs,
            fallbackApplied := decide (qs ≠ q), error := none,
            triedQualities := pre ++ [qs], vibrantColor := vc })) ∧
  ((∀ p ∈ qualityOrder q, attemptFailed (attempt p) = true) →
    ∃ msg, getTrackUrl true (.ok vc) attempt q
      = (none, none,
          { requestedQuality := q, actualQuality := none,
            fallbackApplied := false, error := some msg,
            triedQualities := qualityOrder q, vibrantColor := vc }))

/-- An oracle where `max` fails with an authorization error, `high`
fails with an unrelated error, and `low` succeeds. -/
def attemptOnlyLow : Quality → AttemptOutcome
  | .max => .exc "401 Client Error: Unauthorized"
  | .high => .exc "connection reset"
  | .low => .ok (some "https://cdn.example/low") mdA

/-- The amended C2 TTL property as a predicate: for an entry inserted
at time `T` (and not otherwise evicted or overwritten), a `get` at time
`now` returns it iff `now ≤ T + ttl` (expiry is strict:
`now - T > ttl`); `get_all_tracks` contains its tagged copies iff the
same bound holds. -/
def ttlExpirySpec (now : ℚ) (itemId : String) (T : ℚ)
    (tracks : List TrackDict) (s : CacheState) : Prop :=
  ((TracksCache.get now itemId s).2
    = if now ≤ T + s.ttl then some tracks else none) ∧
  (now ≤ T + s.ttl →
    ∀ tr ∈ tracks,
      assocSet TracksCache.cacheAlbumKey (Val.str itemId) tr
        ∈ (TracksCache.getAllTracks now s).2) ∧
  (¬ now ≤ T + s.ttl →
    ∀ r ∈ (TracksCache.getAllTracks now s).2,
      assocGet TracksCache.cacheAlbumKey r ≠ some (Val.str itemId))

namespace HCache

/-- The tagged copies produced for one entry, reading a given heap. -/
def taggedOf (heap : List TrackDict) (e : String × List Addr) :
    List TrackDict :=
  e.2.map (fun a =>
    assocSet TracksCache.cacheAlbumKey (Val.str e.1) (heap.getD a []))

/-- Number of records `get_all_tracks` produces from a cache. -/
def numAddrs (c : List (String × List Addr)) : ℕ :=
  (c.map (fun e => e.2.length)).sum

/-- The C10 frame/aliasing contract of `get_all_tracks` against `get`:
surviving entries are unchanged (the stored address lists and the dicts
at those addresses are byte-for-byte the same), all returned records
live at freshly allocated addresses, mutating any returned record
leaves every cached dict unchanged, and `get` returns the stored
address list itself (previously allocated addresses, no copies, heap
untouched). -/
def getAllTracksFreshSpec (now : ℚ) (s : HCacheState) : Prop :=
  (∀ p ∈ (getAllTracks now s).1.cache, p ∈ s.cache) ∧
  (∀ p ∈ (getAllTracks now s).1.cache, ∀ a ∈ p.2,
    a < s.heap.length ∧
    (getAllTracks now s).1.heap.getD a [] = s.heap.getD a []) ∧
  (∀ a ∈ (getAllTracks now s).2, s.heap.length ≤ a) ∧
  (∀ a ∈ (getAllTracks now s).2, ∀ d : TrackDict,
    ∀ p ∈ (getAllTracks now s).1.cache, ∀ b ∈ p.2,
      (mutate a d (getAllTracks now s).1).heap.getD b []
        = (getAllTracks now s).1.heap.getD b []) ∧
  (∀ itemId, (get now itemId s).1.heap = s.heap ∧
    ∀ addrs, (get now itemId s).2 = some addrs →
      assocGet itemId (expireOldEntries now s).cache = some addrs ∧
      ∀ a ∈ addrs, a < s.heap.length)

end HCache

/-- A one-entry heap cache used by the C10 witness. -/
def hsample : HCache.HCacheState :=
  { heap := [[("name", Val.str "x")]],
    cache := [("A", [0])], timestamps := [("A", 0)],
    maxTracks := 50000, ttl := 3600 }

end Ttydal

/-! # Theorems -/

namespace Ttydal

/-! ## Shared association-list lemmas -/

theorem assocGet_eq_none_iff {β : Type} (k : String) (d : List (String × β)) :
    assocGet k d = none ↔ ∀ p ∈ d, p.1 ≠ k := by
  simp [assocGet, List.find?_eq_none]

theorem assocSet_of_none {β : Type} (k : String) (v : β)
    (d : List (String × β)) (h : assocGet k d = none) :
    assocSet k v d = d ++ [(k, v)] := by
  rw [assocGet_eq_none_iff] at h
  have hany : d.any (fun p => p.1 == k) = false := by
    simp only [List.any_eq_false]
    intro p hp
    simpa using h p hp
  simp [assocSet, hany]

theorem assocGet_assocDel_self {β : Type} (k : String)
    (d : List (String × β)) : assocGet k (assocDel k d) = none := by
  rw [assocGet_eq_none_iff]
  intro p hp
  have := List.of_mem_filter hp
  simpa using this

theorem assocGet_none_of_suffix {β : Type} {k : String}
    {c c' : List (String × β)} (hs : c' <:+ c)
    (h : assocGet k c = none) : assocGet k c' = none := by
  rw [assocGet_eq_none_iff] at h ⊢
  exact fun p hp => h p (hs.subset hp)

/-! ## Lemmas about the eviction loop of `TracksCache.set` -/

theorem totalLen_append (a b : List (String × List TrackDict)) :
    TracksCache.totalLen (a ++ b) =
      TracksCache.totalLen a + TracksCache.totalLen b := by
  simp [TracksCache.totalLen]

theorem evictWhile_fits_or_empty (maxT n : ℕ)
    (c : List (String × List TrackDict)) :
    TracksCache.totalLen (TracksCache.evictWhile maxT n c).1 + n ≤ maxT ∨
      (TracksCache.evictWhile maxT n c).1 = [] := by
  induction c with
  | nil => exact Or.inr rfl
  | cons e rest ih =>
      by_cases h : TracksCache.totalLen (e :: rest) + n > maxT
      · simpa [TracksCache.evictWhile, h] using ih
      · left
        simp only [TracksCache.evictWhile, if_neg h]
        omega

theorem evictWhile_suffix (maxT n : ℕ)
    (c : List (String × List TrackDict)) :
    (TracksCache.evictWhile maxT n c).1 <:+ c := by
  induction c with
  | nil => simp [TracksCache.evictWhile]
  | cons e rest ih =>
      by_cases h : TracksCache.totalLen (e :: rest) + n > maxT
      · simp only [TracksCache.evictWhile, if_pos h]
        exact ih.trans (List.suffix_cons e rest)
      · simp [TracksCache.evictWhile, if_neg h]

theorem removeEntry_maxTracks (itemId : String) (s : CacheState) :
    (TracksCache.removeEntry itemId s).2.maxTracks = s.maxTracks := by
  unfold TracksCache.removeEntry
  cases assocGet itemId s.cache <;> rfl

theorem foldl_removeEntry_maxTracks (l : List String) (s : CacheState) :
    (l.foldl (fun st itemId => (TracksCache.removeEntry itemId st).2) s).maxTracks
      = s.maxTracks := by
  induction l generalizing s with
  | nil => rfl
  | cons a l ih => rw [List.foldl_cons, ih, removeEntry_maxTracks]

theorem expire_maxTracks (now : ℚ) (s : CacheState) :
    (TracksCache.expireOldEntries now s).maxTracks = s.maxTracks := by
  unfold TracksCache.expireOldEntries
  exact foldl_removeEntry_maxTracks _ s

/-! ## Lemmas about the coordinator's index selection -/

theorem getNextTrackIndex_prefetchFields (cfg : Config) (s : TLState) :
    prefetchFields (getNextTrackIndex cfg s).2 = prefetchFields s := by
  unfold getNextTrackIndex
  by_cases h : cfg.shuffle = true ∧ s.shuffledIndices ≠ []
  · simp only [if_pos h]
    rfl
  · simp only [if_neg h]
    cases s.currentPlayingIndex <;> rfl

theorem getPreviousTrackIndex_prefetchFields (cfg : Config) (s : TLState) :
    prefetchFields (getPreviousTrackIndex cfg s).2 = prefetchFields s := by
  unfold getPreviousTrackIndex
  by_cases h : cfg.shuffle = true ∧ s.shuffledIndices ≠ []
  · simp only [if_pos h]
    rfl
  · simp only [if_neg h]
    cases s.currentPlayingIndex <;> rfl


/-! ## C1: the cache bound -/

section
attribute [local semireducible] Rat.sub Rat.add

/-- C1 counterexample: a single `set` whose track list alone exceeds
`max_tracks` (here 6 tracks with `max_tracks = 5`) empties the cache and
then inserts the oversized entry anyway, so the claimed bound
`total ≤ max_tracks` fails after that call. -/
theorem cache_bound_counterexample :
    TracksCache.totalTracks
        (TracksCache.set 0 "A" (List.replicate 6 [])
          (TracksCache.init 5 3600)) = 6 ∧
    ¬ TracksCache.totalTracks
        (TracksCache.set 0 "A" (List.replicate 6 [])
          (TracksCache.init 5 3600))
      ≤ (TracksCache.init 5 3600).maxTracks :=
  ⟨by decide, by decide⟩

end

theorem totalLen_after_insert (M : ℕ) (itemId : String)
    (tracks : List TrackDict) (c : List (String × List TrackDict))
    (hnone : assocGet itemId c = none) (h : tracks.length ≤ M) :
    TracksCache.totalLen
      (assocSet itemId tracks (TracksCache.evictWhile M tracks.length c).1)
      ≤ M := by
  have hnone3 : assocGet itemId (TracksCache.evictWhile M tracks.length c).1
      = none :=
    assocGet_none_of_suffix (evictWhile_suffix M tracks.length c) hnone
  rw [assocSet_of_none _ _ _ hnone3, totalLen_append]
  have hone : TracksCache.totalLen [(itemId, tracks)] = tracks.length := by
    simp [TracksCache.totalLen]
  rcases evictWhile_fits_or_empty M tracks.length c with hfit | hempty
  · omega
  · rw [hempty]
    have hnil : TracksCache.totalLen
        ([] : List (String × List TrackDict)) = 0 := by
      simp [TracksCache.totalLen]
    omega

theorem setStep_get_none (itemId : String) (s1 : CacheState) :
    assocGet itemId
      ((if (assocGet itemId s1.cache).isSome
        then (TracksCache.removeEntry itemId s1).2 else s1)).cache = none := by
  by_cases hg : (assocGet itemId s1.cache).isSome
  · rw [if_pos hg]
    cases hh : assocGet itemId s1.cache with
    | none => rw [hh] at hg; simp at hg
    | some tr =>
        unfold TracksCache.removeEntry
        rw [hh]
        exact assocGet_assocDel_self itemId s1.cache
  · rw [if_neg hg]
    exact Option.not_isSome_iff_eq_none.mp hg

/-- C1 (amended): the bound holds for every `set` call whose own track
list fits within `max_tracks` — regardless of the prior cache contents,
after such a call the total track count is at most `max_tracks` (so it
holds after each call of any sequence of such calls).  A call whose
list alone exceeds `max_tracks` violates the bound
(`cache_bound_counterexample`). -/
theorem set_totalTracks_le (now : ℚ) (itemId : String)
    (tracks : List TrackDict) (s : CacheState)
    (h : tracks.length ≤ s.maxTracks) :
    TracksCache.totalTracks (TracksCache.set now itemId tracks s)
      ≤ s.maxTracks := by
  have hmax2 : ((if (assocGet itemId (TracksCache.expireOldEntries now s).cache).isSome
      then (TracksCache.removeEntry itemId (TracksCache.expireOldEntries now s)).2
      else TracksCache.expireOldEntries now s)).maxTracks = s.maxTracks := by
    by_cases hg : (assocGet itemId (TracksCache.expireOldEntries now s).cache).isSome
    · rw [if_pos hg, removeEntry_maxTracks, expire_maxTracks]
    · rw [if_neg hg, expire_maxTracks]
  have main : ∀ s2 : CacheState, s2.maxTracks = s.maxTracks →
      assocGet itemId s2.cache = none →
      TracksCache.totalLen
        (assocSet itemId tracks
          (TracksCache.evictWhile s2.maxTracks tracks.length s2.cache).1)
        ≤ s.maxTracks := by
    intro s2 hm hnone
    rw [hm]
    exact totalLen_after_insert s.maxTracks itemId tracks s2.cache hnone
      (hm ▸ h)
  exact main _ hmax2 (setStep_get_none itemId _)

/-- Witness for the amended C1 bound at a concrete insertion. -/
theorem set_totalTracks_le_witness :
    (List.replicate 3 ([] : TrackDict)).length
        ≤ (TracksCache.init 5 3600).maxTracks ∧
    TracksCache.totalTracks
        (TracksCache.set 0 "B" (List.replicate 3 [])
          (TracksCache.init 5 3600))
      ≤ (TracksCache.init 5 3600).maxTracks :=
  ⟨by decide,
    set_totalTracks_le 0 "B" (List.replicate 3 [])
      (TracksCache.init 5 3600) (by decide)⟩


/-! ## C3: the concrete LRU eviction scenario -/

theorem expire_eq_self_of_fresh (now : ℚ) (s : CacheState)
    (h : ∀ p ∈ s.timestamps, ¬ (now - p.2 > s.ttl)) :
    TracksCache.expireOldEntries now s = s := by
  unfold TracksCache.expireOldEntries
  have hf : s.timestamps.filter (fun p => decide (now - p.2 > s.ttl)) = [] := by
    rw [List.filter_eq_nil_iff]
    intro p hp
    simpa using h p hp
  rw [hf]
  rfl

theorem set_into_empty (now ttl : ℚ) (M : ℕ) (itemId : String)
    (tracks : List TrackDict) :
    TracksCache.set now itemId tracks
        { cache := [], timestamps := [], maxTracks := M, ttl := ttl }
      = { cache := [(itemId, tracks)], timestamps := [(itemId, now)],
          maxTracks := M, ttl := ttl } := rfl

/-- A `set` into a one-entry cache that does not fit: the resident entry
is evicted in full and the new entry alone remains. -/
theorem set_into_one_entry_evict (now tsA ttl : ℚ) (M : ℕ)
    (idA itemId : String) (trA tracks : List TrackDict)
    (hfresh : ¬ (now - tsA > ttl))
    (hcond : trA.length + tracks.length > M)
    (hne : (idA == itemId) = false) :
    TracksCache.set now itemId tracks
        { cache := [(idA, trA)], timestamps := [(idA, tsA)],
          maxTracks := M, ttl := ttl }
      = { cache := [(itemId, tracks)], timestamps := [(itemId, now)],
          maxTracks := M, ttl := ttl } := by
  have hexp : TracksCache.expireOldEntries now
      { cache := [(idA, trA)], timestamps := [(idA, tsA)],
        maxTracks := M, ttl := ttl }
      = { cache := [(idA, trA)], timestamps := [(idA, tsA)],
          maxTracks := M, ttl := ttl } := by
    apply expire_eq_self_of_fresh
    intro p hp
    simp only [List.mem_singleton] at hp
    subst hp
    exact hfresh
  have hga : assocGet itemId [(idA, trA)] = none := by
    simp [assocGet, hne]
  have hev : TracksCache.evictWhile M tracks.length [(idA, trA)]
      = ([], [idA]) := by
    have htot : TracksCache.totalLen [(idA, trA)] = trA.length := by
      simp [TracksCache.totalLen]
    simp [TracksCache.evictWhile, htot, hcond]
  have hdel : assocDel idA [(idA, tsA)] = [] := by
    simp [assocDel]
  simp [TracksCache.set, hexp, hga, hev, hdel, assocSet]

/-- A `set` into a one-entry cache that fits: nothing is evicted and the
new entry is appended as most recently used. -/
theorem set_into_one_entry_fits (now tsB ttl : ℚ) (M : ℕ)
    (idB itemId : String) (trB tracks : List TrackDict)
    (hfresh : ¬ (now - tsB > ttl))
    (hcond : ¬ (trB.length + tracks.length > M))
    (hne : (idB == itemId) = false) :
    TracksCache.set now itemId tracks
        { cache := [(idB, trB)], timestamps := [(idB, tsB)],
          maxTracks := M, ttl := ttl }
      = { cache := [(idB, trB), (itemId, tracks)],
          timestamps := [(idB, tsB), (itemId, now)],
          maxTracks := M, ttl := ttl } := by
  have hexp : TracksCache.expireOldEntries now
      { cache := [(idB, trB)], timestamps := [(idB, tsB)],
        maxTracks := M, ttl := ttl }
      = { cache := [(idB, trB)], timestamps := [(idB, tsB)],
          maxTracks := M, ttl := ttl } := by
    apply expire_eq_self_of_fresh
    intro p hp
    simp only [List.mem_singleton] at hp
    subst hp
    exact hfresh
  have hga : assocGet itemId [(idB, trB)] = none := by
    simp [assocGet, hne]
  have hev : TracksCache.evictWhile M tracks.length [(idB, trB)]
      = ([(idB, trB)], []) := by
    have htot : TracksCache.totalLen [(idB, trB)] = trB.length := by
      simp [TracksCache.totalLen]
    simp [TracksCache.evictWhile, htot, hcond]
  simp [TracksCache.set, hexp, hga, hev, assocSet, hne]

section
attribute [local semireducible] Rat.sub Rat.add

theorem c3step2 :
    TracksCache.set 1 "B" (List.replicate 25000 [])
        { cache := [("A", List.replicate 30000 [])], timestamps := [("A", 0)],
          maxTracks := 50000, ttl := 3600 }
      = { cache := [("B", List.replicate 25000 [])], timestamps := [("B", 1)],
          maxTracks := 50000, ttl := 3600 } :=
  set_into_one_entry_evict 1 0 3600 50000 "A" "B"
    (List.replicate 30000 []) (List.replicate 25000 [])
    (by decide)
    (by simp only [List.length_replicate]; norm_num)
    (by decide)

theorem c3step3 :
    TracksCache.set 2 "C" (List.replicate 10000 [])
        { cache := [("B", List.replicate 25000 [])], timestamps := [("B", 1)],
          maxTracks := 50000, ttl := 3600 }
      = { cache := [("B", List.replicate 25000 []), ("C", List.replicate 10000 [])],
          timestamps := [("B", 1), ("C", 2)],
          maxTracks := 50000, ttl := 3600 } :=
  set_into_one_entry_fits 2 1 3600 50000 "B" "C"
    (List.replicate 25000 []) (List.replicate 10000 [])
    (by decide)
    (by simp only [List.length_replicate]; norm_num)
    (by decide)

end

/-- C3: the LRU eviction scenario with `max_tracks = 50000`: after
`set(A, 30000)`, `set(B, 25000)`, `set(C, 10000)`, entry `A` is entirely
gone, `B` and `C` are fully present (their whole 25000- and 10000-track
lists, never partially evicted), `B` is the least- and `C` the
most-recently-used entry, and the total cached track count is
35000 ≤ 50000. -/
theorem cache_lru_scenario :
    c3cache.cache
      = [("B", List.replicate 25000 []), ("C", List.replicate 10000 [])] ∧
    assocGet "A" c3cache.cache = none ∧
    assocGet "B" c3cache.cache = some (List.replicate 25000 []) ∧
    assocGet "C" c3cache.cache = some (List.replicate 10000 []) ∧
    (List.replicate 25000 ([] : TrackDict)).length = 25000 ∧
    (List.replicate 10000 ([] : TrackDict)).length = 10000 ∧
    TracksCache.totalTracks c3cache = 35000 ∧
    TracksCache.totalTracks c3cache ≤ 50000 := by
  have hc : c3cache
      = { cache := [("B", List.replicate 25000 []), ("C", List.replicate 10000 [])],
          timestamps := [("B", 1), ("C", 2)],
          maxTracks := 50000, ttl := 3600 } := by
    unfold c3cache
    rw [show TracksCache.init 50000 3600
        = { cache := [], timestamps := [], maxTracks := 50000, ttl := 3600 }
      from rfl, set_into_empty, c3step2, c3step3]
  rw [hc]
  refine ⟨rfl, rfl, rfl, rfl, by simp [-List.reduceReplicate],
    by simp [-List.reduceReplicate], ?_, ?_⟩
  · simp [-List.reduceReplicate, TracksCache.totalTracks, TracksCache.totalLen]
  · simp [-List.reduceReplicate, TracksCache.totalTracks, TracksCache.totalLen]

/-! ## C4: auto-advance reason gating -/

/-- C4: an end-of-track event whose reason is not EOF causes no
auto-advance — the state (in particular the current playing index) is
unchanged and no play request is posted; an EOF event with auto-play
disabled also does nothing; and any state change or play request
implies the reason was EOF and auto-play was enabled. -/
theorem autoAdvance_reason_gating (data : Option EndFileReason)
    (cfg : Config) (s : TLState) :
    (data ≠ some EndFileReason.eof → endFileCallback data cfg s = (s, none)) ∧
    (cfg.autoPlay = false → endFileCallback data cfg s = (s, none)) ∧
    (endFileCallback data cfg s ≠ (s, none) →
      data = some EndFileReason.eof ∧ cfg.autoPlay = true) := by
  refine ⟨?_, ?_, ?_⟩
  · intro h
    match data with
    | none => rfl
    | some r =>
        have hr : ¬ r = EndFileReason.eof := by
          intro hh; exact h (by rw [hh])
        simp [endFileCallback, hr]
  · intro h
    match data with
    | none => rfl
    | some r =>
        by_cases hr : r = EndFileReason.eof
        · simp [endFileCallback, hr, onTrackEnd, h]
        · simp [endFileCallback, hr]
  · intro h
    by_cases hd : data = some EndFileReason.eof
    · by_cases ha : cfg.autoPlay = true
      · exact ⟨hd, ha⟩
      · exact absurd (by
          have : cfg.autoPlay = false := by
            cases hq : cfg.autoPlay
            · rfl
            · exact absurd hq ha
          subst hd
          simp [endFileCallback, onTrackEnd, this]) h
    · exact absurd (by
        match data with
        | none => rfl
        | some r =>
            have hr : ¬ r = EndFileReason.eof := by
              intro hh; exact hd (by rw [hh])
            simp [endFileCallback, hr]) h

/-- Witness for C4 at a concrete aborted event. -/
theorem autoAdvance_reason_gating_witness :
    (some EndFileReason.aborted ≠ some EndFileReason.eof) ∧
    endFileCallback (some EndFileReason.aborted) cfgSeq tlA = (tlA, none) :=
  ⟨by decide,
    (autoAdvance_reason_gating (some EndFileReason.aborted) cfgSeq tlA).1
      (by decide)⟩

/-! ## C6: manual track changes and the pre-fetch state -/

/-- C6 counterexample: with a completed pre-fetch stored for track
`"t2"`, a manual `play_next_track`, `play_previous_track` or explicit
list selection does NOT clear the pre-fetch state — contrary to the
claim, the stored result survives all three. -/
theorem manual_change_keeps_prefetch_counterexample :
    (playNextTrack cfgSeq tlPrefetched).1.prefetchedTrackId = some "t2" ∧
    (playNextTrack cfgSeq tlPrefetched).1.prefetchedTrackId ≠ none ∧
    (playPreviousTrack cfgSeq tlPrefetched).1.prefetchedUrl
      = some "https://cdn.example/t2" ∧
    (onListViewSelected (some 1) tlPrefetched).1.prefetchedTrackId
      = some "t2" := by
  decide

/-- C6 (amended): a manual track change (explicit selection, play next,
play previous) leaves the pre-fetch state entirely unchanged; it is not
discarded.  (It is cleared only by the auto-advance in
`_on_track_end`, which consumes it only when the stored track id
matches the chosen next track.) -/
theorem manual_change_preserves_prefetch (cfg : Config) (s : TLState)
    (idx : Option ℕ) :
    prefetchFields (playNextTrack cfg s).1 = prefetchFields s ∧
    prefetchFields (playPreviousTrack cfg s).1 = prefetchFields s ∧
    prefetchFields (onListViewSelected idx s).1 = prefetchFields s := by
  refine ⟨?_, ?_, ?_⟩
  · by_cases h : s.tracks = []
    · simp [playNextTrack, h]
    · have h2 : prefetchFields (playNextTrack cfg s).1
          = prefetchFields (getNextTrackIndex cfg s).2 := by
        simp only [playNextTrack, if_neg h]
        rfl
      rw [h2, getNextTrackIndex_prefetchFields]
  · by_cases h : s.tracks = []
    · simp [playPreviousTrack, h]
    · have h2 : prefetchFields (playPreviousTrack cfg s).1
          = prefetchFields (getPreviousTrackIndex cfg s).2 := by
        simp only [playPreviousTrack, if_neg h]
        rfl
      rw [h2, getPreviousTrackIndex_prefetchFields]
  · match idx with
    | none => rfl
    | some i =>
        by_cases h : i < s.tracks.length
        · simp only [onListViewSelected, if_pos h]
          rfl
        · simp only [onListViewSelected, if_neg h]

/-! ## C8: shuffle order generation -/

/-- C8: given that `random.shuffle` produced any permutation of
`range(len(tracks))`, the generated shuffle order is a permutation of
`[0, N)` (no duplicates or omissions); and if a track at index `k` is
currently playing, `k` occupies position 0 and the shuffle position is
reset to 0. -/
theorem shuffle_order_perm (s : TLState) (perm : List ℕ)
    (hperm : perm.Perm (List.range s.tracks.length)) :
    ((generateShuffleOrder s perm).shuffledIndices).Perm
        (List.range s.tracks.length) ∧
    ((generateShuffleOrder s perm).shuffledIndices).Nodup ∧
    ∀ k, s.currentPlayingIndex = some k → k < s.tracks.length →
      (generateShuffleOrder s perm).shuffledIndices.head? = some k ∧
      (generateShuffleOrder s perm).shufflePosition = 0 := by
  have hres : ((generateShuffleOrder s perm).shuffledIndices).Perm
      (List.range s.tracks.length) := by
    unfold generateShuffleOrder
    split
    · next htr => simp [htr]
    · next htr =>
        match hidx : s.currentPlayingIndex with
        | none => simpa using hperm
        | some k =>
            by_cases hk : k ∈ perm
            · simp only [hidx, if_pos hk]
              exact ((List.perm_cons_erase hk).symm.trans hperm)
            · simp only [hidx, if_neg hk]
              exact hperm
  refine ⟨hres, hres.nodup_iff.mpr (List.nodup_range _), ?_⟩
  intro k hk hlt
  have hkperm : k ∈ perm := hperm.mem_iff.mpr (List.mem_range.mpr hlt)
  have htr : s.tracks ≠ [] := by
    intro hh
    rw [hh] at hlt
    simp at hlt
  unfold generateShuffleOrder
  simp [htr, hk, hkperm]

/-- Witness for C8 at a concrete two-track state and permutation. -/
theorem shuffle_order_perm_witness :
    ([1, 0] : List ℕ).Perm (List.range tlA.tracks.length) ∧
    ((generateShuffleOrder tlA [1, 0]).shuffledIndices).Perm
        (List.range tlA.tracks.length) :=
  ⟨by decide, (shuffle_order_perm tlA [1, 0] (by decide)).1⟩



/-! ## C9: pre-fetch triggering -/

section
attribute [local semireducible] Rat.sub Rat.add

/-- C9 counterexample: with every other condition met, a track duration
of exactly 20 s (which does not exceed 20 s) still starts a pre-fetch;
and after a failed pre-fetch attempt the guard is fully reset, so a
second pre-fetch is started for the same playing track — the claimed
"at most once per playing track" fails. -/
theorem prefetch_trigger_counterexample :
    (onTimePosChange cfgSeq 20 6 tlA).2 = true ∧
    ¬ ((20 : ℚ) > 20) ∧
    (prefetchNextTrack cfgSeq resolveFail
        (onTimePosChange cfgSeq 20 6 tlA).1).currentPlayingIndex
      = tlA.currentPlayingIndex ∧
    (onTimePosChange cfgSeq 20 7
        (prefetchNextTrack cfgSeq resolveFail
          (onTimePosChange cfgSeq 20 6 tlA).1)).2 = true :=
  ⟨by decide, by decide, by decide, by decide⟩

end

/-- C9 (amended): a pre-fetch is started at a time-position update only
when all of the following hold: no pre-fetch is already completed or in
flight, a track is playing from a nonempty list, auto-play is enabled,
the duration is known (positive) and is AT LEAST 20 s (the 15 s lead
window plus the 5 s margin; exactly 20 s qualifies), and the remaining
time is in (0, 15]; starting sets the in-progress flag.  While a
pre-fetch is in flight, or after one has completed and its result is
still stored, any further trigger is a no-op.  (After a failed attempt
the guard is reset, so another pre-fetch may start for the same playing
track — see the counterexample.) -/
theorem prefetch_trigger_conditions (cfg : Config) (d t : ℚ) (s : TLState) :
    prefetchTriggerSpec cfg d t s := by
  unfold prefetchTriggerSpec
  refine ⟨?_, ?_, ?_⟩
  · intro h
    unfold onTimePosChange at h
    dsimp only at h
    split_ifs at h with h1 h2 h3 h4 h5
    push_neg at h1 h2
    have hip : s.prefetchInProgress = false := by
      cases hq : s.prefetchInProgress
      · rfl
      · exact absurd hq h1.2
    have hap : cfg.autoPlay = true := by
      by_contra hq
      refine h3 ?_
      cases hc : cfg.autoPlay
      · rfl
      · exact absurd hc hq
    push_neg at h4
    have h20 : (20 : ℚ) ≤ d := by
      have := h4.2
      unfold PREFETCH_SECONDS_BEFORE_END at this
      linarith
    refine ⟨h1.1, hip, h2.1, h2.2, hap, h4.1, h20, ?_, ?_, ?_⟩
    · have := h5.1
      unfold PREFETCH_SECONDS_BEFORE_END at this
      exact this
    · exact h5.2
    · unfold onTimePosChange
      dsimp only
      rw [if_neg (by push_neg; exact h1), if_neg (by push_neg; exact h2),
        if_neg h3, if_neg (by push_neg; exact h4), if_pos h5]
  · intro h
    unfold onTimePosChange
    rw [if_pos (Or.inr h)]
  · intro h
    unfold onTimePosChange
    rw [if_pos (Or.inl h)]

/-- Witness for C9 (amended): an in-flight pre-fetch makes the trigger
a no-op at a concrete state. -/
theorem prefetch_trigger_conditions_witness :
    prefetchTriggerSpec cfgSeq 100 50 { tlA with prefetchInProgress := true } ∧
    onTimePosChange cfgSeq 100 50 { tlA with prefetchInProgress := true }
      = ({ tlA with prefetchInProgress := true }, false) :=
  ⟨prefetch_trigger_conditions cfgSeq 100 50 _,
    (prefetch_trigger_conditions cfgSeq 100 50
      { tlA with prefetchInProgress := true }).2.1 rfl⟩



/-! ## C5: pre-fetch consumption on auto-advance -/

theorem playTrack_prefetched
    (resolve : String → Quality → Option String × Option StreamMetadata × ErrorInfo)
    (tid : String) (tinfo : Track) (q : Quality) (fvc : Bool)
    (u : String) (md : StreamMetadata) (ei : Option ErrorInfo)
    (hu : u ≠ "") :
    (playTrack resolve tid tinfo q fvc (some u) (some md) ei).2
      = (false, some (u, tinfo, md)) := by
  simp [playTrack, truthyStr, hu]

theorem playTrack_onDemand
    (resolve : String → Quality → Option String × Option StreamMetadata × ErrorInfo)
    (tid : String) (tinfo : Track) (q : Quality) (fvc : Bool)
    (ei : Option ErrorInfo) :
    (playTrack resolve tid tinfo q fvc none none ei).2.1 = true := by
  rcases hr : resolve tid q with ⟨u, m, e⟩
  cases u with
  | none => simp [playTrack, truthyStr, hr]
  | some v =>
      cases m with
      | none => simp [playTrack, truthyStr, hr]
      | some mm =>
          by_cases hv : v = ""
          · simp [playTrack, truthyStr, hr, hv]
          · simp [playTrack, truthyStr, hr, hv]

/-- Python truthiness of an optional string, unpacked. -/
theorem truthyStr_iff (u : Option String) :
    truthyStr u = true ↔ ∃ v, u = some v ∧ v ≠ "" := by
  cases u <;> simp [truthyStr]

/-- C5: on auto-advance, the pre-fetch is consumed exactly when its
stored id matches the chosen next track; the pre-fetch state is cleared
in the state posted along with the message. -/
theorem prefetch_consumption (cfg : Config) (s : TLState)
    (hauto : cfg.autoPlay = true)
    (hidx : s.currentPlayingIndex ≠ none)
    (htr : s.tracks ≠ [])
    (hcomplete : ∀ tid, s.prefetchedTrackId = some tid →
      truthyStr s.prefetchedUrl = true ∧ s.prefetchedMetadata.isSome = true) :
    prefetchConsumptionSpec cfg s := by
  unfold prefetchConsumptionSpec
  have hguard : ¬ (s.currentPlayingIndex = none ∨ s.tracks = []) := by
    push_neg
    exact ⟨hidx, htr⟩
  rcases hgn : getNextTrackIndex cfg s with ⟨nextIndex, s1⟩
  have hpf : prefetchFields s1 = prefetchFields s := by
    have h : s1 = (getNextTrackIndex cfg s).2 := by rw [hgn]
    rw [h]
    exact getNextTrackIndex_prefetchFields cfg s
  simp only [prefetchFields, Prod.mk.injEq] at hpf
  obtain ⟨hp1, hp2, hp3, hp4, hp5⟩ := hpf
  by_cases hm : s.prefetchedTrackId = some (s1.tracks.getD nextIndex default).id
  · have hrun : onTrackEnd cfg s
        = (clearPrefetchState { s1 with currentPlayingIndex := some nextIndex },
            some { trackId := (s1.tracks.getD nextIndex default).id,
                   trackInfo := s1.tracks.getD nextIndex default,
                   prefetchedUrl := s.prefetchedUrl,
                   prefetchedMetadata := s.prefetchedMetadata,
                   prefetchedErrorInfo := s.prefetchedErrorInfo }) := by
      unfold onTrackEnd
      rw [hauto]
      rw [if_neg (by simp), if_neg hguard, hgn]
      dsimp only
      rw [if_pos (hp1.trans hm)]
      rw [hp2, hp3, hp4]
    refine ⟨_, by rw [hrun], by rw [hrun]; rfl, ?_, ?_⟩
    · intro _
      obtain ⟨hurl, hmd⟩ := hcomplete _ hm
      obtain ⟨u, hu, hune⟩ : ∃ v, s.prefetchedUrl = some v ∧ v ≠ "" :=
        (truthyStr_iff s.prefetchedUrl).mp hurl
      obtain ⟨md, hmd'⟩ : ∃ a, s.prefetchedMetadata = some a :=
        Option.isSome_iff_exists.mp hmd
      refine ⟨rfl, rfl, ?_⟩
      intro resolve q fvc
      have hplay := playTrack_prefetched resolve
        (s1.tracks.getD nextIndex default).id
        (s1.tracks.getD nextIndex default) q fvc u md
        s.prefetchedErrorInfo hune
      constructor
      · show (playTrack resolve _ _ q fvc
            s.prefetchedUrl s.prefetchedMetadata s.prefetchedErrorInfo).2.1
            = false
        rw [hu, hmd', hplay]
      · refine ⟨u, md, hu, hmd', ?_⟩
        show (playTrack resolve _ _ q fvc
            s.prefetchedUrl s.prefetchedMetadata s.prefetchedErrorInfo).2.2
            = some (u, s1.tracks.getD nextIndex default, md)
        rw [hu, hmd', hplay]
    · intro hne
      exact absurd hm hne
  · have hrun : onTrackEnd cfg s
        = (clearPrefetchState { s1 with currentPlayingIndex := some nextIndex },
            some { trackId := (s1.tracks.getD nextIndex default).id,
                   trackInfo := s1.tracks.getD nextIndex default,
                   prefetchedUrl := none,
                   prefetchedMetadata := none,
                   prefetchedErrorInfo := none }) := by
      unfold onTrackEnd
      rw [hauto]
      rw [if_neg (by simp), if_neg hguard, hgn]
      dsimp only
      rw [if_neg (fun hcc => hm (hp1.symm.trans hcc))]
    refine ⟨_, by rw [hrun], by rw [hrun]; rfl, ?_, ?_⟩
    · intro hmm
      exact absurd hmm hm
    · intro _
      refine ⟨rfl, rfl, ?_⟩
      intro resolve q fvc
      exact playTrack_onDemand resolve _ _ q fvc none

/-- Witness for C5 at a concrete matching pre-fetch: `tlPrefetched`
holds a completed pre-fetch for "t2", and sequential auto-advance from
index 0 of ["t1", "t2"] chooses exactly "t2". -/
theorem prefetch_consumption_witness :
    cfgSeq.autoPlay = true ∧ prefetchConsumptionSpec cfgSeq tlPrefetched :=
  ⟨rfl,
    prefetch_consumption cfgSeq tlPrefetched rfl (by decide) (by decide)
      (fun _ _ => ⟨by decide, rfl⟩)⟩



/-! ## C7: the quality fallback ladder -/

theorem tryQualities_success (attempt : Quality → AttemptOutcome)
    (requested : Quality) (url : Option String) (md : StreamMetadata)
    (qs : Quality) (post pre : List Quality) (lastErr : Option String)
    (ei : ErrorInfo)
    (hpre : ∀ p ∈ pre, attemptFailed (attempt p) = true)
    (hok : attempt qs = .ok url md) :
    tryQualities attempt requested lastErr ei (pre ++ qs :: post)
      = (url, some md,
          { ei with
              triedQualities := ei.triedQualities ++ (pre ++ [qs])
              actualQuality := some qs
              fallbackApplied := decide (qs ≠ requested) }) := by
  induction pre generalizing lastErr ei with
  | nil =>
      simp only [List.nil_append, tryQualities, hok]
  | cons p rest ih =>
      have hp : attemptFailed (attempt p) = true :=
        hpre p (List.mem_cons_self _ _)
      cases hap : attempt p with
      | ok u m => rw [hap] at hp; simp [attemptFailed] at hp
      | noStream =>
          simp only [List.cons_append, tryQualities, hap, List.append_eq]
          rw [ih _ _ (fun x hx => hpre x (List.mem_cons_of_mem _ hx))]
          simp [List.append_assoc]
      | exc msg =>
          simp only [List.cons_append, tryQualities, hap, List.append_eq]
          rw [ih _ _ (fun x hx => hpre x (List.mem_cons_of_mem _ hx))]
          simp [List.append_assoc]

theorem tryQualities_allFail (attempt : Quality → AttemptOutcome)
    (requested : Quality) (qs : List Quality) (lastErr : Option String)
    (ei : ErrorInfo)
    (hall : ∀ p ∈ qs, attemptFailed (attempt p) = true) :
    ∃ msg, tryQualities attempt requested lastErr ei qs
      = (none, none,
          { ei with
              triedQualities := ei.triedQualities ++ qs
              error := some msg }) := by
  induction qs generalizing lastErr ei with
  | nil =>
      cases lastErr with
      | none =>
          exact ⟨"Track not available at any quality", by simp [tryQualities]⟩
      | some msg =>
          by_cases hmsg : msg = ""
          · exact ⟨"Track not available at any quality",
              by simp [tryQualities, hmsg]⟩
          · exact ⟨msg, by simp [tryQualities, hmsg]⟩
  | cons p rest ih =>
      have hp : attemptFailed (attempt p) = true :=
        hall p (List.mem_cons_self _ _)
      cases hap : attempt p with
      | ok u m => rw [hap] at hp; simp [attemptFailed] at hp
      | noStream =>
          obtain ⟨msg, hres⟩ :=
            ih (some "No stream available")
              { ei with triedQualities := ei.triedQualities ++ [p] }
              (fun x hx => hall x (List.mem_cons_of_mem _ hx))
          refine ⟨msg, ?_⟩
          simp only [tryQualities, hap, List.append_eq]
          rw [hres]
          simp [List.append_assoc]
      | exc msg0 =>
          obtain ⟨msg, hres⟩ :=
            ih _ { ei with triedQualities := ei.triedQualities ++ [p] }
              (fun x hx => hall x (List.mem_cons_of_mem _ hx))
          refine ⟨msg, ?_⟩
          simp only [tryQualities, hap, List.append_eq]
          rw [hres]
          simp [List.append_assoc]

theorem getTrackUrl_loggedIn (attempt : Quality → AttemptOutcome)
    (q : Quality) (vc : Option String) :
    getTrackUrl true (.ok vc) attempt q
      = tryQualities attempt q none
          { requestedQuality := q, actualQuality := none,
            fallbackApplied := false, error := none, triedQualities := [],
            vibrantColor := vc } (qualityOrder q) := by
  unfold getTrackUrl
  rw [if_neg (by simp)]

/-- C7: the quality fallback ladder of `get_track_url` (given a
logged-in session and a successful track fetch): the exact ladders; on
the first succeeding tier the result reports `actual_quality`,
`fallback_applied = (actual ≠ requested)` and `tried_qualities` in
order; any kind of per-tier failure (authorization or other) falls
through, and only exhausting the whole ladder fails. -/
theorem quality_fallback_ladder (attempt : Quality → AttemptOutcome)
    (q : Quality) (vc : Option String) :
    qualityFallbackSpec attempt q vc := by
  unfold qualityFallbackSpec
  refine ⟨⟨rfl, rfl, rfl⟩, ?_, ?_⟩
  · intro pre qs post url md hlad hpre hok
    rw [getTrackUrl_loggedIn, hlad,
      tryQualities_success attempt q url md qs post pre none _ hpre hok]
    simp
  · intro hall
    obtain ⟨msg, hres⟩ := tryQualities_allFail attempt q (qualityOrder q)
      none _ hall
    exact ⟨msg, by rw [getTrackUrl_loggedIn, hres]; simp⟩

/-- Witness for C7: requesting `max` when only `low` succeeds tries
max, high, low in order, reporting `actual_quality = low`,
`fallback_applied = true`, `tried_qualities = [max, high, low]`. -/
theorem quality_fallback_ladder_witness :
    qualityFallbackSpec attemptOnlyLow Quality.max (some "#aabbcc") ∧
    getTrackUrl true (.ok (some "#aabbcc")) attemptOnlyLow Quality.max
      = (some "https://cdn.example/low", some mdA,
          { requestedQuality := .max, actualQuality := some .low,
            fallbackApplied := true, error := none,
            triedQualities := [.max, .high, .low],
            vibrantColor := some "#aabbcc" }) :=
  ⟨quality_fallback_ladder attemptOnlyLow .max (some "#aabbcc"),
    ((quality_fallback_ladder attemptOnlyLow .max (some "#aabbcc")).2.1
      [.max, .high] .low [] (some "https://cdn.example/low") mdA
      (by decide) (by decide) (by decide)).trans (by decide)⟩



/-! ## C2: TTL expiry -/

theorem assocGet_cons_of_ne {β : Type} (p : String × β) (k : String)
    (rest : List (String × β)) (h : p.1 ≠ k) :
    assocGet k (p :: rest) = assocGet k rest := by
  unfold assocGet
  rw [@List.find?_cons_of_neg _ (fun q => q.1 == k) p rest
    (by simpa using h)]

theorem assocGet_cons_of_eq {β : Type} (p : String × β) (k : String)
    (rest : List (String × β)) (h : p.1 = k) :
    assocGet k (p :: rest) = some p.2 := by
  unfold assocGet
  rw [@List.find?_cons_of_pos _ (fun q => q.1 == k) p rest
    (by simpa using h)]
  rfl

theorem assocGet_of_mem_nodup {β : Type} {k : String} {v : β}
    {d : List (String × β)} (hnd : (d.map Prod.fst).Nodup)
    (hm : (k, v) ∈ d) : assocGet k d = some v := by
  induction d with
  | nil => cases hm
  | cons p rest ih =>
      rw [List.map_cons, List.nodup_cons] at hnd
      rcases List.mem_cons.mp hm with h | h
      · subst h
        exact assocGet_cons_of_eq (k, v) k rest rfl
      · have hk : k ∈ rest.map Prod.fst := List.mem_map.mpr ⟨(k, v), h, rfl⟩
        have hp1 : p.1 ≠ k := fun he => hnd.1 (he ▸ hk)
        rw [assocGet_cons_of_ne p k rest hp1]
        exact ih hnd.2 h

theorem mem_of_assocGet_some {β : Type} {k : String} {v : β}
    {d : List (String × β)} (h : assocGet k d = some v) : (k, v) ∈ d := by
  unfold assocGet at h
  rcases hf : d.find? (fun p => p.1 == k) with _ | p
  · rw [hf] at h
    cases h
  · rw [hf] at h
    have hp := List.find?_some hf
    have hmem : p ∈ d := List.mem_of_find?_eq_some hf
    have hp1 : p.1 = k := by simpa using hp
    have hp2 : p.2 = v := by simpa using h
    have : p = (k, v) := by
      rcases p with ⟨p1, p2⟩
      simp only at hp1 hp2
      rw [hp1, hp2]
    exact this ▸ hmem

theorem assoc_mem_unique {β : Type} {k : String} {v w : β}
    {d : List (String × β)} (hnd : (d.map Prod.fst).Nodup)
    (hv : (k, v) ∈ d) (hw : (k, w) ∈ d) : v = w :=
  Option.some.inj
    ((assocGet_of_mem_nodup hnd hv).symm.trans (assocGet_of_mem_nodup hnd hw))

theorem assocGet_assocDel_ne {β : Type} {j k : String} (hne : j ≠ k)
    (d : List (String × β)) : assocGet k (assocDel j d) = assocGet k d := by
  induction d with
  | nil => rfl
  | cons p rest ih =>
      by_cases hpj : p.1 = j
      · have hstep : assocDel j (p :: rest) = assocDel j rest := by
          simp [assocDel, List.filter_cons, hpj]
        have hpk : p.1 ≠ k := by rw [hpj]; exact hne
        rw [hstep, ih, assocGet_cons_of_ne p k rest hpk]
      · have hstep : assocDel j (p :: rest) = p :: assocDel j rest := by
          simp [assocDel, List.filter_cons, hpj]
        rw [hstep]
        by_cases hpk : p.1 = k
        · rw [assocGet_cons_of_eq p k _ hpk, assocGet_cons_of_eq p k rest hpk]
        · rw [assocGet_cons_of_ne p k _ hpk, assocGet_cons_of_ne p k rest hpk]
          exact ih

theorem removeEntry_get_ne (j k : String) (hne : j ≠ k) (s : CacheState) :
    assocGet k (TracksCache.removeEntry j s).2.cache = assocGet k s.cache := by
  unfold TracksCache.removeEntry
  cases assocGet j s.cache
  · rfl
  · exact assocGet_assocDel_ne hne s.cache

theorem removeEntry_get_self (j : String) (s : CacheState) :
    assocGet j (TracksCache.removeEntry j s).2.cache = none := by
  unfold TracksCache.removeEntry
  cases hg : assocGet j s.cache
  · exact hg
  · exact assocGet_assocDel_self j s.cache

theorem removeEntry_get_none (j k : String) (s : CacheState)
    (h : assocGet k s.cache = none) :
    assocGet k (TracksCache.removeEntry j s).2.cache = none := by
  by_cases hj : j = k
  · subst hj
    exact removeEntry_get_self j s
  · rw [removeEntry_get_ne j k hj s]
    exact h

theorem foldl_removeEntry_get_not_mem (l : List String) (k : String)
    (hk : k ∉ l) (s : CacheState) :
    assocGet k
        ((l.foldl (fun st itemId => (TracksCache.removeEntry itemId st).2) s)).cache
      = assocGet k s.cache := by
  induction l generalizing s with
  | nil => rfl
  | cons j l ih =>
      rw [List.foldl_cons,
        ih (fun h => hk (List.mem_cons_of_mem _ h)),
        removeEntry_get_ne j k (fun h => hk (h ▸ List.mem_cons_self j l)) s]

theorem foldl_removeEntry_get_none (l : List String) (k : String)
    (s : CacheState) (h : assocGet k s.cache = none) :
    assocGet k
        ((l.foldl (fun st itemId => (TracksCache.removeEntry itemId st).2) s)).cache
      = none := by
  induction l generalizing s with
  | nil => exact h
  | cons j l ih =>
      rw [List.foldl_cons]
      exact ih _ (removeEntry_get_none j k s h)

theorem foldl_removeEntry_get_mem (l : List String) (k : String)
    (hk : k ∈ l) (s : CacheState) :
    assocGet k
        ((l.foldl (fun st itemId => (TracksCache.removeEntry itemId st).2) s)).cache
      = none := by
  induction l generalizing s with
  | nil => cases hk
  | cons j l ih =>
      rw [List.foldl_cons]
      by_cases hjk : j = k
      · subst hjk
        exact foldl_removeEntry_get_none l j _ (removeEntry_get_self j s)
      · exact ih ((List.mem_cons.mp hk).resolve_left
          (fun h => hjk h.symm)) _

theorem mem_expired_iff (now : ℚ) (s : CacheState) {k : String} {T : ℚ}
    (hndt : (s.timestamps.map Prod.fst).Nodup)
    (ht : (k, T) ∈ s.timestamps) :
    k ∈ (s.timestamps.filter
          (fun p => decide (now - p.2 > s.ttl))).map Prod.fst
      ↔ now - T > s.ttl := by
  constructor
  · intro hmem
    obtain ⟨⟨p1, p2⟩, hp, hpk⟩ := List.mem_map.mp hmem
    simp only at hpk
    subst hpk
    have hpf := List.mem_filter.mp hp
    have hT : p2 = T := assoc_mem_unique hndt hpf.1 ht
    subst hT
    exact of_decide_eq_true hpf.2
  · intro hgt
    exact List.mem_map.mpr
      ⟨(k, T), List.mem_filter.mpr ⟨ht, decide_eq_true hgt⟩, rfl⟩

theorem expire_get (now : ℚ) (s : CacheState) {itemId : String} {T : ℚ}
    {tracks : List TrackDict}
    (hndc : (s.cache.map Prod.fst).Nodup)
    (hndt : (s.timestamps.map Prod.fst).Nodup)
    (hc : (itemId, tracks) ∈ s.cache)
    (ht : (itemId, T) ∈ s.timestamps) :
    assocGet itemId (TracksCache.expireOldEntries now s).cache
      = if now - T > s.ttl then none else some tracks := by
  unfold TracksCache.expireOldEntries
  by_cases hexp : now - T > s.ttl
  · rw [if_pos hexp]
    exact foldl_removeEntry_get_mem _ _
      ((mem_expired_iff now s hndt ht).mpr hexp) s
  · rw [if_neg hexp]
    rw [foldl_removeEntry_get_not_mem _ _
      (fun hmem => hexp ((mem_expired_iff now s hndt ht).mp hmem)) s]
    exact assocGet_of_mem_nodup hndc hc

theorem assocGet_assocSet_self {β : Type} (k : String) (v : β)
    (d : List (String × β)) : assocGet k (assocSet k v d) = some v := by
  induction d with
  | nil =>
      have hstep : assocSet k v ([] : List (String × β)) = [(k, v)] := rfl
      rw [hstep, assocGet_cons_of_eq (k, v) k [] rfl]
  | cons p rest ih =>
      by_cases hpk : p.1 = k
      · have hany : (p :: rest).any (fun q => q.1 == k) = true := by
          simp [hpk]
        have hstep : assocSet k v (p :: rest)
            = (k, v) :: rest.map (fun q => if q.1 == k then (k, v) else q) := by
          unfold assocSet
          rw [if_pos hany, List.map_cons, if_pos (by simpa using hpk)]
        rw [hstep, assocGet_cons_of_eq (k, v) k _ rfl]
      · by_cases hany : rest.any (fun q => q.1 == k)
        · have hany2 : (p :: rest).any (fun q => q.1 == k) = true := by
            simp only [List.any_cons, hany, Bool.or_true]
          have hstep : assocSet k v (p :: rest)
              = p :: rest.map (fun q => if q.1 == k then (k, v) else q) := by
            unfold assocSet
            rw [if_pos hany2, List.map_cons, if_neg (by simpa using hpk)]
          have ih2 : assocGet k
              (rest.map (fun q => if q.1 == k then (k, v) else q)) = some v := by
            unfold assocSet at ih
            rw [if_pos hany] at ih
            exact ih
          rw [hstep, assocGet_cons_of_ne p k _ hpk]
          exact ih2
        · have hany2 : (p :: rest).any (fun q => q.1 == k) = false := by
            simp only [List.any_cons, hany, Bool.or_false]
            simpa using hpk
          have hstep : assocSet k v (p :: rest) = p :: (rest ++ [(k, v)]) := by
            unfold assocSet
            rw [if_neg (by simp [hany2]), List.cons_append]
          have ih2 : assocGet k (rest ++ [(k, v)]) = some v := by
            unfold assocSet at ih
            rw [if_neg (by simp [hany])] at ih
            exact ih
          rw [hstep, assocGet_cons_of_ne p k _ hpk]
          exact ih2

section
attribute [local semireducible] Rat.sub Rat.add

/-- C2 counterexample: an entry inserted at `T = 0` with `ttl = 3600`
is STILL returned by a `get` at time exactly `T + ttl = 3600` (the
code expires only strictly after the TTL), contradicting the claim that
queries at time ≥ `T + ttl` do not return it. -/
theorem ttl_boundary_counterexample :
    (3600 : ℚ) ≥ 0 + 3600 ∧
    (TracksCache.get 3600 "A"
        { cache := [("A", [[]])], timestamps := [("A", 0)],
          maxTracks := 50000, ttl := 3600 }).2 = some [[]] :=
  ⟨by decide, by decide⟩

end

/-- C2 (amended): for an entry `(itemId, tracks)` inserted at time `T`
(present in the cache with unique dict keys), a `get` at time `now`
returns it iff `now ≤ T + ttl` — strictly after `T + ttl` it is gone,
at or before `T + ttl` it is returned — and `get_all_tracks` contains
its tagged copies under exactly the same bound. -/
theorem ttl_expiry (now : ℚ) (itemId : String) (T : ℚ)
    (tracks : List TrackDict) (s : CacheState)
    (hndc : (s.cache.map Prod.fst).Nodup)
    (hndt : (s.timestamps.map Prod.fst).Nodup)
    (hc : (itemId, tracks) ∈ s.cache)
    (ht : (itemId, T) ∈ s.timestamps) :
    ttlExpirySpec now itemId T tracks s := by
  unfold ttlExpirySpec
  have hkey := expire_get now s hndc hndt hc ht
  have hiff : (now - T > s.ttl) ↔ ¬ now ≤ T + s.ttl := by
    constructor <;> intro h
    · intro h2
      linarith
    · push_neg at h
      linarith
  refine ⟨?_, ?_, ?_⟩
  · by_cases hle : now ≤ T + s.ttl
    · have hsome : assocGet itemId
          (TracksCache.expireOldEntries now s).cache = some tracks := by
        rw [hkey, if_neg (fun hgt => (hiff.mp hgt) hle)]
      simp only [TracksCache.get, hsome]
      rw [if_pos hle]
    · have hnone : assocGet itemId
          (TracksCache.expireOldEntries now s).cache = none := by
        rw [hkey, if_pos (hiff.mpr hle)]
      simp only [TracksCache.get, hnone]
      rw [if_neg hle]
  · intro hle tr htr
    have hsome : assocGet itemId
        (TracksCache.expireOldEntries now s).cache = some tracks := by
      rw [hkey, if_neg (fun hgt => (hiff.mp hgt) hle)]
    have hmem : (itemId, tracks) ∈ (TracksCache.expireOldEntries now s).cache :=
      mem_of_assocGet_some hsome
    simp only [TracksCache.getAllTracks]
    apply List.mem_flatten.mpr
    refine ⟨tracks.map
      (fun track => assocSet TracksCache.cacheAlbumKey (Val.str itemId) track),
      ?_, ?_⟩
    · exact List.mem_map.mpr ⟨(itemId, tracks), hmem, rfl⟩
    · exact List.mem_map.mpr ⟨tr, htr, rfl⟩
  · intro hgt r hr heq
    simp only [TracksCache.getAllTracks] at hr
    obtain ⟨l, hl, hrl⟩ := List.mem_flatten.mp hr
    obtain ⟨⟨id2, trs⟩, hmem2, hl2⟩ := List.mem_map.mp hl
    subst hl2
    obtain ⟨tr2, htr2, hr2⟩ := List.mem_map.mp hrl
    subst hr2
    rw [assocGet_assocSet_self] at heq
    have hid : id2 = itemId := by
      have hv := Option.some.inj heq
      exact Val.str.inj hv
    subst hid
    have hnone : assocGet id2
        (TracksCache.expireOldEntries now s).cache = none := by
      rw [hkey, if_pos (hiff.mpr hgt)]
    rw [assocGet_eq_none_iff] at hnone
    exact hnone (id2, trs) hmem2 rfl

/-- Witness for C2 (amended) at a concrete one-entry cache, queried
within the TTL. -/
theorem ttl_expiry_witness :
    (([("A", [[]])] : List (String × List TrackDict)).map Prod.fst).Nodup ∧
    ttlExpirySpec 100 "A" 0 [[]]
      { cache := [("A", [[]])], timestamps := [("A", 0)],
        maxTracks := 50000, ttl := 3600 } :=
  ⟨by decide,
    ttl_expiry 100 "A" 0 [[]]
      { cache := [("A", [[]])], timestamps := [("A", 0)],
        maxTracks := 50000, ttl := 3600 }
      (by decide) (by decide) (by decide) (by decide)⟩



/-! ## C10: get_all_tracks returns fresh copies; get does not -/

theorem hRemoveEntry_cache_subset (j : String) (s : HCache.HCacheState) :
    ∀ p ∈ (HCache.removeEntry j s).cache, p ∈ s.cache := by
  unfold HCache.removeEntry
  cases assocGet j s.cache
  · exact fun p hp => hp
  · exact fun p hp => List.mem_of_mem_filter hp

theorem hRemoveEntry_heap (j : String) (s : HCache.HCacheState) :
    (HCache.removeEntry j s).heap = s.heap := by
  unfold HCache.removeEntry
  cases assocGet j s.cache <;> rfl

theorem hFoldl_removeEntry_cache_subset (l : List String)
    (s : HCache.HCacheState) :
    ∀ p ∈ (l.foldl (fun st itemId => HCache.removeEntry itemId st) s).cache,
      p ∈ s.cache := by
  induction l generalizing s with
  | nil => exact fun p hp => hp
  | cons j l ih =>
      intro p hp
      rw [List.foldl_cons] at hp
      exact hRemoveEntry_cache_subset j s p (ih _ p hp)

theorem hFoldl_removeEntry_heap (l : List String) (s : HCache.HCacheState) :
    (l.foldl (fun st itemId => HCache.removeEntry itemId st) s).heap
      = s.heap := by
  induction l generalizing s with
  | nil => rfl
  | cons j l ih => rw [List.foldl_cons, ih, hRemoveEntry_heap]

theorem hExpire_cache_subset (now : ℚ) (s : HCache.HCacheState) :
    ∀ p ∈ (HCache.expireOldEntries now s).cache, p ∈ s.cache :=
  hFoldl_removeEntry_cache_subset _ s

theorem hExpire_heap (now : ℚ) (s : HCache.HCacheState) :
    (HCache.expireOldEntries now s).heap = s.heap :=
  hFoldl_removeEntry_heap _ s

theorem copyEntry_spec (itemId : String) (addrs : List HCache.Addr)
    (heap : List TrackDict) (hwf : ∀ a ∈ addrs, a < heap.length) :
    HCache.copyEntry itemId heap addrs
      = (heap ++ HCache.taggedOf heap (itemId, addrs),
          List.range' heap.length addrs.length) := by
  induction addrs generalizing heap with
  | nil => simp [HCache.copyEntry, HCache.taggedOf]
  | cons a rest ih =>
      have ha : a < heap.length := hwf a (List.mem_cons_self _ _)
      have hwf2 : ∀ b ∈ rest,
          b < (heap ++ [assocSet TracksCache.cacheAlbumKey (Val.str itemId)
            (heap.getD a [])]).length := by
        intro b hb
        simp only [List.length_append, List.length_singleton]
        exact Nat.lt_add_right _ (hwf b (List.mem_cons_of_mem _ hb))
      simp only [HCache.copyEntry]
      rw [ih _ hwf2]
      have htail : List.map (fun b =>
            assocSet TracksCache.cacheAlbumKey (Val.str itemId)
              ((heap ++ [assocSet TracksCache.cacheAlbumKey (Val.str itemId)
                (heap.getD a [])]).getD b [])) rest
          = List.map (fun b => assocSet TracksCache.cacheAlbumKey
              (Val.str itemId) (heap.getD b [])) rest := by
        apply List.map_congr_left
        intro b hb
        rw [List.getD_append _ _ _ _ (hwf b (List.mem_cons_of_mem _ hb))]
      have hheap : (heap ++ [assocSet TracksCache.cacheAlbumKey
            (Val.str itemId) (heap.getD a [])])
            ++ HCache.taggedOf (heap ++ [assocSet TracksCache.cacheAlbumKey
              (Val.str itemId) (heap.getD a [])]) (itemId, rest)
          = heap ++ HCache.taggedOf heap (itemId, (a :: rest)) := by
        unfold HCache.taggedOf
        dsimp only
        rw [List.append_assoc, List.singleton_append, List.map_cons, htail]
      have haddr : heap.length
            :: List.range' (heap ++ [assocSet TracksCache.cacheAlbumKey
              (Val.str itemId) (heap.getD a [])]).length rest.length
          = List.range' heap.length (a :: rest).length := by
        simp only [List.length_append, List.length_cons, List.length_nil,
          Nat.zero_add]
        rw [List.range'_succ]
      rw [hheap, haddr]

theorem getAllTracksAux_spec (c : List (String × List HCache.Addr))
    (heap : List TrackDict)
    (hwf : ∀ p ∈ c, ∀ a ∈ p.2, a < heap.length) :
    HCache.getAllTracksAux heap c
      = (heap ++ (c.map (HCache.taggedOf heap)).flatten,
          List.range' heap.length (HCache.numAddrs c)) := by
  induction c generalizing heap with
  | nil => simp [HCache.getAllTracksAux, HCache.numAddrs]
  | cons e rest ih =>
      rcases e with ⟨itemId, addrs⟩
      have hwf1 : ∀ a ∈ addrs, a < heap.length := by
        intro a ha
        exact hwf (itemId, addrs) (List.mem_cons_self _ _) a ha
      have hlen : (HCache.taggedOf heap (itemId, addrs)).length
          = addrs.length := by
        unfold HCache.taggedOf
        exact List.length_map _ _
      have hwf2 : ∀ p ∈ rest, ∀ a ∈ p.2,
          a < (heap ++ HCache.taggedOf heap (itemId, addrs)).length := by
        intro p hp a ha
        rw [List.length_append, hlen]
        exact Nat.lt_add_right _ (hwf p (List.mem_cons_of_mem _ hp) a ha)
      simp only [HCache.getAllTracksAux]
      rw [copyEntry_spec itemId addrs heap hwf1, ih _ hwf2]
      have hheap : (heap ++ HCache.taggedOf heap (itemId, addrs))
            ++ (rest.map (HCache.taggedOf
              (heap ++ HCache.taggedOf heap (itemId, addrs)))).flatten
          = heap ++ ((((itemId, addrs) :: rest)).map
              (HCache.taggedOf heap)).flatten := by
        rw [List.append_assoc, List.map_cons, List.flatten_cons]
        congr 2
        congr 1
        apply List.map_congr_left
        intro p hp
        unfold HCache.taggedOf
        apply List.map_congr_left
        intro b hb
        rw [List.getD_append _ _ _ _ (hwf p (List.mem_cons_of_mem _ hp) b hb)]
      have haddr : List.range' heap.length addrs.length
            ++ List.range' (heap ++ HCache.taggedOf heap (itemId, addrs)).length
              (HCache.numAddrs rest)
          = List.range' heap.length
              (HCache.numAddrs ((itemId, addrs) :: rest)) := by
        rw [List.length_append, hlen]
        rw [List.range'_append_1]
        unfold HCache.numAddrs
        rw [List.map_cons, List.sum_cons, Nat.add_comm]
      rw [hheap, haddr]

/-- C10: under well-formedness (every cached address is allocated),
`get_all_tracks` never mutates the cached entries — every surviving
entry keeps its stored address list and the dicts at those addresses
are unchanged; every returned record is a fresh copy at a
newly-allocated address, so mutating it leaves the cache unaffected;
whereas `get` returns the stored address list itself and allocates
nothing. -/
theorem getAllTracks_fresh_copies (now : ℚ) (s : HCache.HCacheState)
    (hwf : HCache.WF s) : HCache.getAllTracksFreshSpec now s := by
  unfold HCache.getAllTracksFreshSpec
  have hexph : (HCache.expireOldEntries now s).heap = s.heap :=
    hExpire_heap now s
  have hsub := hExpire_cache_subset now s
  have hwf1 : ∀ p ∈ (HCache.expireOldEntries now s).cache, ∀ a ∈ p.2,
      a < (HCache.expireOldEntries now s).heap.length := by
    intro p hp a ha
    rw [hexph]
    exact hwf p (hsub p hp) a ha
  have hrun0 : HCache.getAllTracks now s
      = ({ HCache.expireOldEntries now s with
            heap := (HCache.getAllTracksAux
              (HCache.expireOldEntries now s).heap
              (HCache.expireOldEntries now s).cache).1 },
          (HCache.getAllTracksAux (HCache.expireOldEntries now s).heap
            (HCache.expireOldEntries now s).cache).2) := rfl
  rw [getAllTracksAux_spec _ _ hwf1] at hrun0
  refine ⟨?_, ?_, ?_, ?_, ?_⟩
  · intro p hp
    rw [hrun0] at hp
    exact hsub p hp
  · intro p hp a ha
    rw [hrun0] at hp ⊢
    have hb : a < s.heap.length := hwf p (hsub p hp) a ha
    refine ⟨hb, ?_⟩
    show ((HCache.expireOldEntries now s).heap
        ++ _).getD a [] = s.heap.getD a []
    rw [List.getD_append _ _ _ _ (by rw [hexph]; exact hb), hexph]
  · intro a ha
    rw [hrun0] at ha
    have hmem := ha
    rw [List.mem_range'] at hmem
    obtain ⟨i, hi, rfl⟩ := hmem
    rw [hexph]
    omega
  · intro a ha d p hp b hb
    rw [hrun0] at ha hp ⊢
    have hblt : b < s.heap.length := hwf p (hsub p hp) b hb
    have halow : s.heap.length ≤ a := by
      rw [List.mem_range'] at ha
      obtain ⟨i, hi, rfl⟩ := ha
      rw [hexph]
      omega
    have hne : a ≠ b := (lt_of_lt_of_le hblt halow).ne'
    unfold HCache.mutate
    simp only [List.getD_eq_getElem?_getD]
    rw [List.getElem?_set_ne hne]
  · intro itemId
    refine ⟨?_, ?_⟩
    · cases hg : assocGet itemId (HCache.expireOldEntries now s).cache with
      | none =>
          have hres : (HCache.get now itemId s).1.heap
              = (HCache.expireOldEntries now s).heap := by
            simp only [HCache.get, hg]
          rw [hres, hexph]
      | some addrs =>
          have hres : (HCache.get now itemId s).1.heap
              = (HCache.expireOldEntries now s).heap := by
            simp only [HCache.get, hg]
          rw [hres, hexph]
    · intro addrs hres2
      cases hg : assocGet itemId (HCache.expireOldEntries now s).cache with
      | none =>
          have hn : (HCache.get now itemId s).2 = none := by
            simp only [HCache.get, hg]
          rw [hn] at hres2
          cases hres2
      | some addrs0 =>
          have hsome : (HCache.get now itemId s).2 = some addrs0 := by
            simp only [HCache.get, hg]
          rw [hsome] at hres2
          have heq := Option.some.inj hres2
          subst heq
          refine ⟨rfl, ?_⟩
          intro a ha
          have hmem := mem_of_assocGet_some hg
          exact hwf _ (hsub _ hmem) a ha



/-- Witness for C10 at a concrete one-entry heap cache. -/
theorem getAllTracks_fresh_copies_witness :
    HCache.WF hsample ∧ HCache.getAllTracksFreshSpec 100 hsample :=
  ⟨by unfold HCache.WF hsample; decide,
    getAllTracks_fresh_copies 100 hsample (by unfold HCache.WF hsample; decide)⟩

end Ttydal
